import Mathlib

/-!
Verification of the uuid-console shell (src/shell.cpp) against its
natural-language specification.

Bytes are modelled as natural numbers (the C++ code reads unsigned chars);
strings are lists of bytes, token sequences are lists of such lists.
External collaborators (command dispatcher, transport, logging subsystem,
virtual hook methods) are modelled as an explicit environment record, and
the std function callbacks stored in the mode data are defunctionalised
as numeric identifiers resolved through the environment.
-/

set_option maxHeartbeats 1000000

namespace UuidConsole

/-! ## Tokenizer: Shell::parse_line and Shell::format_line -/

/-- Parser state of Shell::parse_line: the finished tokens (most recent
first, each stored in order), the token currently being built (stored in
reverse for efficient push_back), and the three escape flags of the C++
local variables. -/
structure PState where
  acc : List (List Nat)
  cur : List Nat
  string_escape_double : Bool
  string_escape_single : Bool
  char_escape : Bool
deriving DecidableEq, Repr

/-- Push one byte onto the token currently being built
(items.back().push_back(c) in the C++ code). -/
def PState.push (st : PState) (c : Nat) : PState :=
  { st with cur := c :: st.cur }

/-- Start a new empty token (items.emplace_back("") in the C++ code). -/
def PState.newTok (st : PState) : PState :=
  { st with acc := st.cur.reverse :: st.acc, cur := [] }

/-- One iteration of the character loop of Shell::parse_line, the switch
on the byte c. -/
def pStep (st : PState) (c : Nat) : PState :=
  if c = 32 then
    if st.string_escape_double || st.string_escape_single then
      if st.char_escape then
        (({ st with char_escape := false }).push 92).push 32
      else
        st.push 32
    else if st.char_escape then
      ({ st with char_escape := false }).push 32
    else if st.cur ≠ [] then
      st.newTok
    else
      st
  else if c = 34 then
    if st.char_escape || st.string_escape_single then
      ({ st with char_escape := false }).push 34
    else
      { st with string_escape_double := !st.string_escape_double }
  else if c = 39 then
    if st.char_escape || st.string_escape_double then
      ({ st with char_escape := false }).push 39
    else
      { st with string_escape_single := !st.string_escape_single }
  else if c = 92 then
    if st.char_escape then
      ({ st with char_escape := false }).push 92
    else
      { st with char_escape := true }
  else
    if st.char_escape then
      (({ st with char_escape := false }).push 92).push c
    else
      st.push c

/-- The initial parser state: one empty token has been seeded. -/
def pInit : PState := ⟨[], [], false, false, false⟩

/-- Read the list of tokens out of the final parser state. -/
def PState.finish (st : PState) : List (List Nat) :=
  (st.cur.reverse :: st.acc).reverse

/-- Shell::parse_line: an empty line yields no tokens, otherwise one empty
token is seeded and the character loop runs over the line. -/
def parse_line (line : List Nat) : List (List Nat) :=
  if line = [] then [] else (line.foldl pStep pInit).finish

/-- The escaping of a single byte inside Shell::format_line: space, double
quote, single quote and backslash receive a preceding backslash. -/
def escChar (c : Nat) : List Nat :=
  if c = 32 ∨ c = 34 ∨ c = 39 ∨ c = 92 then [92, c] else [c]

/-- The escaping of one whole token inside Shell::format_line. -/
def escTok (t : List Nat) : List Nat :=
  t.flatMap escChar

/-- Shell::format_line: joins the escaped tokens, inserting a space before
an item whenever the accumulated line is non-empty. -/
def format_line (items : List (List Nat)) : List Nat :=
  items.foldl (fun line item =>
    (if line.isEmpty then line else line ++ [32]) ++ escTok item) []

/-! ## Shell state machine

The Shell class state that the claims depend on.  The callbacks stored in
the mode data (std function values in the C++ code) are defunctionalised:
the mode data stores a numeric identifier, and the environment resolves
identifiers to Lean functions. -/

/-- Shell::Mode. -/
inductive Mode where
  | normal
  | password
  | delay
deriving DecidableEq, Repr

/-- Shell mode data: Shell::PasswordData (prompt text plus the password
callback) or Shell::DelayData (absolute deadline plus the delay callback),
with callbacks as identifiers. -/
inductive ModeData where
  | passwordData (password_prompt : List Nat) (fnId : Nat)
  | delayData (delay_time : Nat) (fnId : Nat)
deriving DecidableEq, Repr

/-- Shell::QueuedLogMessage: a sequence id and a reference to the (opaque)
log message content, modelled as a number. -/
structure QueuedLogMessage where
  id : Nat
  content : Nat
deriving DecidableEq, Repr

/-- The mutable fields of a Shell instance used by the claims. -/
structure ShellState where
  line_buffer : List Nat
  mode : Mode
  mode_data : Option ModeData
  previous : Nat
  log_messages : List QueuedLogMessage
  log_message_id : Nat
  stopped : Bool
  prompt_displayed : Bool
  context : List Nat
  flags : Nat
deriving DecidableEq, Repr

/-- Events instrumenting the observable calls the claims count: entry into
Shell::process_command, the call of the dispatcher execute entry point, and
the invocation of the two stored mode callbacks.  The delay event records
the mode and mode data of the state handed to the callback. -/
inductive Event where
  | procCmd (tokens : List (List Nat))
  | execCmd (tokens : List (List Nat))
  | delayCb (fnId : Nat) (argMode : Mode) (argData : Option ModeData)
  | passwordCb (fnId : Nat) (completed : Bool) (text : List Nat)
deriving DecidableEq, Repr

/-- Result of one shell step: the new state, the bytes written to the
transport, and the instrumentation events. -/
structure StepOut where
  state : ShellState
  out : List Nat
  events : List Event
deriving Repr

/-- The external collaborators and implementation constants.  The command
dispatcher interface is modelled from the spec (the Commands class lives in
the missing header): execute takes the context stack, the flags and the
tokens and returns an optional error text; complete returns help lines and
an optional replacement token sequence.  The hook texts are the virtual
methods of the Shell class and the two limits are the
MAX_COMMAND_LINE_LENGTH and MAX_LOG_MESSAGES constants of the missing
header. -/
structure Env where
  maxLineLength : Nat
  maxLogMessages : Nat
  hostname : List Nat
  contextText : List Nat
  promptPrefix : List Nat
  promptSuffix : List Nat
  hasCommands : Bool
  execCommand : List Nat → Nat → List (List Nat) → Option (List Nat)
  completeCommand : List Nat → Nat → List (List Nat) →
    List (List (List Nat)) × List (List Nat)
  delayFn : Nat → ShellState → ShellState × List Nat
  passwordFn : Nat → ShellState → Bool → List Nat → ShellState × List Nat
  endOfTransmission : ShellState → ShellState × List Nat
  logLine : QueuedLogMessage → List Nat

/-- Modelled from the spec: Shell::println lives in the missing header and
the spec fixes the output line terminator as CR plus LF. -/
def crlf : List Nat := [13, 10]

/-- The escape sequence of Shell::erase_current_line, cursor to column zero
plus erase to end of line. -/
def eraseLineSeq : List Nat := [27, 91, 48, 71, 27, 91, 75]

/-- Shell::erase_current_line: writes the erase sequence and marks the
prompt as not displayed. -/
def erase_current_line (s : ShellState) : ShellState × List Nat :=
  ({ s with prompt_displayed := false }, eraseLineSeq)

/-- Shell::erase_characters: writes count backspaces and erase to end of
line. -/
def erase_characters (count : Nat) : List Nat :=
  List.replicate count 8 ++ [27, 91, 75]

/-- Shell::display_prompt: nothing in delay mode, the stored password
prompt in password mode, and the assembled prefix, hostname, context,
suffix and line buffer in normal mode (only the normal branch marks the
prompt as displayed, as in the C++ switch). -/
def display_prompt (env : Env) (s : ShellState) : ShellState × List Nat :=
  match s.mode with
  | Mode.delay => (s, [])
  | Mode.password =>
    match s.mode_data with
    | some (ModeData.passwordData p _) => (s, p)
    | _ => (s, [])
  | Mode.normal =>
    let w := env.promptPrefix
      ++ (if env.hostname.isEmpty then [] else env.hostname ++ [32])
      ++ (if env.contextText.isEmpty then [] else env.contextText ++ [32])
      ++ env.promptSuffix ++ [32] ++ s.line_buffer
    ({ s with prompt_displayed := true }, w)

/-- Shell::output_logs: if the queue is non-empty, erase the current line
(skipped in delay mode), render every queued entry in arrival order, empty
the queue and redisplay the prompt. -/
def output_logs (env : Env) (s : ShellState) : ShellState × List Nat :=
  if s.log_messages.isEmpty then (s, [])
  else
    let w1 := if s.mode = Mode.delay then [] else eraseLineSeq
    let s1 := if s.mode = Mode.delay then s else { s with prompt_displayed := false }
    let w2 := (s.log_messages.map env.logLine).flatten
    let s2 := { s1 with log_messages := [] }
    let dp := display_prompt env s2
    (dp.1, w1 ++ w2 ++ dp.2)

/-- The operator shifting a log message into the queue: when the queue has
reached maximum_log_messages the oldest entry is popped, then the message
is appended with the next sequence id. -/
def log_receive (env : Env) (s : ShellState) (m : Nat) : ShellState :=
  let q := if env.maxLogMessages ≤ s.log_messages.length
    then s.log_messages.tail else s.log_messages
  { s with log_messages := q ++ [⟨s.log_message_id, m⟩]
           log_message_id := s.log_message_id + 1 }

/-- Appending a whole list of log messages with no intervening drains. -/
def log_receive_all (env : Env) (s : ShellState) (ms : List Nat) : ShellState :=
  ms.foldl (log_receive env) s

/-- Shell::process_command: tokenize the buffer, clear it, emit a newline,
invoke the dispatcher when the tokens are non-empty and a dispatcher is
attached (displaying a returned error), and redisplay the prompt when
still running. -/
def process_command (env : Env) (s : ShellState) : StepOut :=
  let command_line := parse_line s.line_buffer
  let s1 := { s with line_buffer := [], prompt_displayed := false }
  let r2 : ShellState × List Nat × List Event :=
    if command_line.isEmpty || !env.hasCommands then (s1, [], [])
    else
      match env.execCommand s1.context s1.flags command_line with
      | some err => (s1, err ++ crlf, [Event.execCmd command_line])
      | none => (s1, [], [Event.execCmd command_line])
  let fin := if r2.1.stopped then (r2.1, []) else display_prompt env r2.1
  ⟨fin.1, crlf ++ r2.2.1 ++ fin.2, Event.procCmd command_line :: r2.2.2⟩

/-- Shell::process_completion: tokenize the buffer and, when tokens exist
and a dispatcher is attached, display any help lines and install any
replacement (formatted) into the line buffer, redisplaying the prompt when
either was present. -/
def process_completion (env : Env) (s : ShellState) : StepOut :=
  let command_line := parse_line s.line_buffer
  if command_line.isEmpty || !env.hasCommands then ⟨s, [], []⟩
  else
    let comp := env.completeCommand s.context s.flags command_line
    let help := comp.1
    let replacement := comp.2
    let w1 := if help.isEmpty then []
      else crlf ++ (help.map (fun h => format_line h ++ crlf)).flatten
    let redisplay1 := !help.isEmpty
    let r2 : ShellState × List Nat × Bool :=
      if replacement.isEmpty then (s, [], redisplay1)
      else
        let er := if redisplay1 then (s, ([] : List Nat)) else erase_current_line s
        ({ er.1 with line_buffer := format_line replacement }, er.2, true)
    let fin := if r2.2.2 then display_prompt env r2.1 else (r2.1, [])
    ⟨fin.1, w1 ++ r2.2.1 ++ fin.2, []⟩

/-- Shell::process_password: emit a newline, clear the mode back to normal,
invoke the stored password callback with the completed flag and the
captured buffer, clear the buffer afterwards, and redisplay the prompt when
still running. -/
def process_password (env : Env) (completed : Bool) (s : ShellState) : StepOut :=
  match s.mode_data with
  | some (ModeData.passwordData _ fnId) =>
    let s1 := { s with mode := Mode.normal, mode_data := none }
    let pf := env.passwordFn fnId s1 completed s1.line_buffer
    let s3 := { pf.1 with line_buffer := [] }
    let fin := if s3.stopped then (s3, []) else display_prompt env s3
    ⟨fin.1, crlf ++ pf.2 ++ fin.2, [Event.passwordCb fnId completed s1.line_buffer]⟩
  | _ => ⟨s, crlf, []⟩

/-- The position of the last space in the buffer
(std string find_last_of of a space character). -/
def find_last_of (x : Nat) : List Nat → Option Nat
  | [] => none
  | c :: cs =>
    match find_last_of x cs with
    | some i => some (i + 1)
    | none => if c = x then some 0 else none

/-- Shell::delete_buffer_word: no space means clear the whole buffer (with
erase and prompt redraw when displaying), otherwise erase the displayed
tail and truncate the buffer at the last space. -/
def delete_buffer_word (env : Env) (display : Bool) (s : ShellState) :
    ShellState × List Nat :=
  match find_last_of 32 s.line_buffer with
  | none =>
    let s1 := { s with line_buffer := [] }
    if display then
      let er := erase_current_line s1
      let dp := display_prompt env er.1
      (dp.1, er.2 ++ dp.2)
    else (s1, [])
  | some pos =>
    let w := if display then erase_characters (s.line_buffer.length - pos) else []
    ({ s with line_buffer := s.line_buffer.take pos }, w)

/-- The switch of Shell::loop_normal on one input byte; the previous byte
is recorded after the switch, whatever branch ran. -/
def handle_normal (env : Env) (s : ShellState) (c : Nat) : StepOut :=
  let r : StepOut :=
    if c = 3 then
      let s1 := { s with line_buffer := [], prompt_displayed := false }
      let dp := display_prompt env s1
      ⟨dp.1, crlf ++ dp.2, []⟩
    else if c = 4 then
      if s.line_buffer.isEmpty then
        let eot := env.endOfTransmission s
        ⟨eot.1, eot.2, []⟩
      else ⟨s, [], []⟩
    else if c = 8 ∨ c = 127 then
      if s.line_buffer.isEmpty then ⟨s, [], []⟩
      else ⟨{ s with line_buffer := s.line_buffer.dropLast }, erase_characters 1, []⟩
    else if c = 9 then
      process_completion env s
    else if c = 10 then
      if s.previous ≠ 13 then process_command env s else ⟨s, [], []⟩
    else if c = 12 then
      let er := erase_current_line s
      let dp := display_prompt env er.1
      ⟨dp.1, er.2 ++ dp.2, []⟩
    else if c = 13 then
      process_command env s
    else if c = 21 then
      let er := erase_current_line s
      let s2 := { er.1 with line_buffer := [] }
      let dp := display_prompt env s2
      ⟨dp.1, er.2 ++ dp.2, []⟩
    else if c = 23 then
      let dw := delete_buffer_word env true s
      ⟨dw.1, dw.2, []⟩
    else if 32 ≤ c ∧ c ≤ 126 then
      if s.line_buffer.length < env.maxLineLength then
        ⟨{ s with line_buffer := s.line_buffer ++ [c] }, [c], []⟩
      else ⟨s, [], []⟩
    else ⟨s, [], []⟩
  ⟨{ r.state with previous := c }, r.out, r.events⟩

/-- The switch of Shell::loop_password on one input byte; no echo of
printable bytes, no completion, CR or LF confirm the capture, interrupt
cancels it; the previous byte is recorded after the switch. -/
def handle_password (env : Env) (s : ShellState) (c : Nat) : StepOut :=
  let r : StepOut :=
    if c = 3 then
      process_password env false s
    else if c = 8 ∨ c = 127 then
      if s.line_buffer.isEmpty then ⟨s, [], []⟩
      else ⟨{ s with line_buffer := s.line_buffer.dropLast }, [], []⟩
    else if c = 10 then
      if s.previous ≠ 13 then process_password env true s else ⟨s, [], []⟩
    else if c = 12 then
      let er := erase_current_line s
      let dp := display_prompt env er.1
      ⟨dp.1, er.2 ++ dp.2, []⟩
    else if c = 13 then
      process_password env true s
    else if c = 21 then
      ⟨{ s with line_buffer := [] }, [], []⟩
    else if c = 23 then
      let dw := delete_buffer_word env false s
      ⟨dw.1, dw.2, []⟩
    else if 32 ≤ c ∧ c ≤ 126 then
      if s.line_buffer.length < env.maxLineLength then
        ⟨{ s with line_buffer := s.line_buffer ++ [c] }, [], []⟩
      else ⟨s, [], []⟩
    else ⟨s, [], []⟩
  ⟨{ r.state with previous := c }, r.out, r.events⟩

/-- Shell::loop_delay: once the monotonic uptime reaches the stored
deadline, the mode is cleared back to normal and the mode data released
before the stored callback runs; afterwards the prompt is redisplayed when
the shell is still running.  Input is never read in delay mode. -/
def loop_delay (env : Env) (now : Nat) (s : ShellState) : StepOut :=
  match s.mode_data with
  | some (ModeData.delayData t fnId) =>
    if t ≤ now then
      let s1 := { s with mode := Mode.normal, mode_data := none }
      let fn := env.delayFn fnId s1
      let fin := if fn.1.stopped then (fn.1, []) else display_prompt env fn.1
      ⟨fin.1, fn.2 ++ fin.2, [Event.delayCb fnId s1.mode s1.mode_data]⟩
    else ⟨s, [], []⟩
  | _ => ⟨s, [], []⟩

/-- One Shell::loop_one tick: drain the log queue, then dispatch on the
mode.  The pending transport input is a byte list from which normal and
password mode read at most one byte (Shell::read_one_char); delay mode
reads nothing.  Returns the step result and the remaining input. -/
def loop_one (env : Env) (now : Nat) (s : ShellState) (input : List Nat) :
    StepOut × List Nat :=
  let ol := output_logs env s
  match ol.1.mode with
  | Mode.normal =>
    match input with
    | [] => (⟨ol.1, ol.2, []⟩, [])
    | c :: rest =>
      let r := handle_normal env ol.1 c
      (⟨r.state, ol.2 ++ r.out, r.events⟩, rest)
  | Mode.password =>
    match input with
    | [] => (⟨ol.1, ol.2, []⟩, [])
    | c :: rest =>
      let r := handle_password env ol.1 c
      (⟨r.state, ol.2 ++ r.out, r.events⟩, rest)
  | Mode.delay =>
    let r := loop_delay env now ol.1
    (⟨r.state, ol.2 ++ r.out, r.events⟩, input)

/-- A run of consecutive loop_one ticks; the list gives the monotonic
uptime observed at each tick. -/
def run_ticks (env : Env) : List Nat → ShellState → List Nat →
    ShellState × List Nat × List Event
  | [], s, _ => (s, [], [])
  | now :: ts, s, input =>
    let r := loop_one env now s input
    let rec2 := run_ticks env ts r.1.state r.2
    (rec2.1, r.1.out ++ rec2.2.1, r.1.events ++ rec2.2.2)

/-- Shell::delay_until: only honoured in normal mode, stores the absolute
deadline and the callback and switches to delay mode. -/
def delay_until (t : Nat) (fnId : Nat) (s : ShellState) : ShellState :=
  if s.mode = Mode.normal then
    { s with mode := Mode.delay, mode_data := some (ModeData.delayData t fnId) }
  else s

/-- Shell::delay_for: a relative delay from the current uptime. -/
def delay_for (now ms : Nat) (fnId : Nat) (s : ShellState) : ShellState :=
  delay_until (now + ms) fnId s

/-- Shell::enter_password: only honoured in normal mode. -/
def enter_password (prompt : List Nat) (fnId : Nat) (s : ShellState) : ShellState :=
  if s.mode = Mode.normal then
    { s with mode := Mode.password, mode_data := some (ModeData.passwordData prompt fnId) }
  else s

/-- Modelled from the spec: Shell::enter_context lives in the missing
header; the spec describes the context stack as push of a named
sub-context, so entering appends the context id. -/
def enter_context (ctx : Nat) (s : ShellState) : ShellState :=
  { s with context := s.context ++ [ctx] }

/-- Shell::exit_context: pops the last context and reports success only
when more than one context remains. -/
def exit_context (s : ShellState) : ShellState × Bool :=
  if 1 < s.context.length then ({ s with context := s.context.dropLast }, true)
  else (s, false)

/-- The Shell constructor: stores the flags and enters the initial
context.  Modelled from the spec where the missing header decides: the
remaining field initialisers (empty buffer, normal mode with no mode data,
empty log queue, running, prompt not displayed) follow the spec invariants
and the described start state. -/
def mkShell (context flags : Nat) : ShellState :=
  enter_context context
    { line_buffer := [], mode := Mode.normal, mode_data := none, previous := 0,
      log_messages := [], log_message_id := 0, stopped := false,
      prompt_displayed := false, context := [], flags := flags }

/-! ## Auxiliary definitions used by the statements -/

/-- The tail of a formatted line: the remaining tokens of format_line, each
preceded by one separating space. -/
def fmtRest : List (List Nat) → List Nat
  | [] => []
  | t :: ts => 32 :: (escTok t ++ fmtRest ts)

/-- The queue entries created by a run of log appends starting at a given
sequence id. -/
def mkEntries (n : Nat) : List Nat → List QueuedLogMessage
  | [] => []
  | m :: ms => ⟨n, m⟩ :: mkEntries (n + 1) ms

/-- Recognises the event marking one entry into Shell::process_command. -/
def isProcCmdEv : Event → Bool
  | Event.procCmd _ => true
  | _ => false

/-- Recognises the event marking one invocation of a stored delay
callback. -/
def isDelayCbEv : Event → Bool
  | Event.delayCb _ _ _ => true
  | _ => false

/-- A byte is a control character (below the printable ASCII range or
delete). -/
def isControl (c : Nat) : Prop := c < 32 ∨ c = 127

instance (c : Nat) : Decidable (isControl c) := by
  unfold isControl; infer_instance

/-- Low equivalence of shell states: every field agrees except the line
buffer holding captured secret bytes and the previous-input byte. -/
def lowEq (s t : ShellState) : Prop :=
  s.mode = t.mode ∧ s.mode_data = t.mode_data ∧
  s.log_messages = t.log_messages ∧ s.log_message_id = t.log_message_id ∧
  s.stopped = t.stopped ∧ s.prompt_displayed = t.prompt_displayed ∧
  s.context = t.context ∧ s.flags = t.flags

instance (s t : ShellState) : Decidable (lowEq s t) := by
  unfold lowEq; infer_instance

/-- Relation on the input bytes of two password-mode runs: positionally the
bytes are equal or both printable, and neither is one of the three bytes
that complete the capture (interrupt, LF, CR). -/
def pwByteRel (c d : Nat) : Prop :=
  (c = d ∨ (32 ≤ c ∧ c ≤ 126 ∧ 32 ≤ d ∧ d ≤ 126)) ∧
  c ≠ 3 ∧ c ≠ 10 ∧ c ≠ 13 ∧ d ≠ 3 ∧ d ≠ 10 ∧ d ≠ 13

/-- A concrete trivial environment used to instantiate hypotheses on
explicit inputs. -/
def trivEnv : Env :=
  { maxLineLength := 4
    maxLogMessages := 2
    hostname := []
    contextText := []
    promptPrefix := []
    promptSuffix := [36]
    hasCommands := true
    execCommand := fun _ _ _ => none
    completeCommand := fun _ _ _ => ([], [])
    delayFn := fun _ s => ({ s with mode := Mode.normal }, [])
    passwordFn := fun _ s _ _ => ({ s with mode := Mode.normal }, [])
    endOfTransmission := fun s => (s, [])
    logLine := fun _ => [] }

/-- The queue evolution of repeated log appends, lifted out of the shell
state: the pure fold underlying log_receive_all. -/
def queueFold (maxN : Nat) : List QueuedLogMessage → Nat → List Nat → List QueuedLogMessage
  | q, _, [] => q
  | q, n, m :: ms =>
    queueFold maxN ((if maxN ≤ q.length then q.tail else q) ++ [⟨n, m⟩]) (n + 1) ms

/-- An environment whose completion entry point returns a replacement that
formats past the maximum line length. -/
def overflowEnv : Env :=
  { trivEnv with
    maxLineLength := 1
    completeCommand := fun _ _ _ => ([], [[98, 99]]) }

example : parse_line [] = [] := by decide
example : parse_line [32, 32] = [[]] := by decide
example : parse_line [97, 32, 98] = [[97], [98]] := by decide
example : format_line [[97], [98]] = [97, 32, 98] := by decide
example : format_line [[]] = [] := by decide
example : parse_line (format_line [[]]) = [] := by decide
example : parse_line [97, 92] = [[97]] := by decide
-- foo "bar baz" qux parses as foo / bar baz / qux
example : parse_line [102,111,111,32,34,98,97,114,32,98,97,122,34,32,113,117,120]
    = [[102,111,111], [98,97,114,32,98,97,122], [113,117,120]] := by decide


/-! ## Tokenizer lemmas -/

theorem escChar_ne_nil (c : Nat) : escChar c ≠ [] := by
  unfold escChar
  split <;> simp

theorem escTok_ne_nil {t : List Nat} (h : t ≠ []) : escTok t ≠ [] := by
  cases t with
  | nil => exact absurd rfl h
  | cons c t =>
    have : escTok (c :: t) = escChar c ++ escTok t := by
      simp [escTok]
    rw [this]
    intro hx
    exact escChar_ne_nil c (List.append_eq_nil.mp hx).1

theorem pStep_escChar (acc : List (List Nat)) (cur : List Nat) (c : Nat) :
    List.foldl pStep ⟨acc, cur, false, false, false⟩ (escChar c)
      = ⟨acc, c :: cur, false, false, false⟩ := by
  by_cases h32 : c = 32
  · subst h32; simp [escChar, pStep, PState.push]
  · by_cases h34 : c = 34
    · subst h34; simp [escChar, pStep, PState.push]
    · by_cases h39 : c = 39
      · subst h39; simp [escChar, pStep, PState.push]
      · by_cases h92 : c = 92
        · subst h92; simp [escChar, pStep, PState.push]
        · simp [escChar, h32, h34, h39, h92, pStep, PState.push]

theorem foldl_pStep_escTok (t : List Nat) (acc : List (List Nat)) (cur : List Nat) :
    List.foldl pStep ⟨acc, cur, false, false, false⟩ (escTok t)
      = ⟨acc, t.reverse ++ cur, false, false, false⟩ := by
  induction t generalizing cur with
  | nil => simp [escTok]
  | cons c t ih =>
    have hts : escTok (c :: t) = escChar c ++ escTok t := by simp [escTok]
    rw [hts, List.foldl_append, pStep_escChar, ih]
    simp

theorem pStep_space_sep (acc : List (List Nat)) (cur : List Nat) (h : cur ≠ []) :
    pStep ⟨acc, cur, false, false, false⟩ 32
      = ⟨cur.reverse :: acc, [], false, false, false⟩ := by
  simp [pStep, PState.newTok, h]

theorem parse_fmtRest (ts : List (List Nat)) (acc : List (List Nat)) (cur : List Nat)
    (hcur : cur ≠ []) (hts : ∀ t ∈ ts, t ≠ []) :
    (List.foldl pStep ⟨acc, cur, false, false, false⟩ (fmtRest ts)).finish
      = (cur.reverse :: acc).reverse ++ ts := by
  induction ts generalizing acc cur with
  | nil => simp [fmtRest, PState.finish]
  | cons t ts ih =>
    have hrw : fmtRest (t :: ts) = 32 :: (escTok t ++ fmtRest ts) := rfl
    rw [hrw, List.foldl_cons, pStep_space_sep acc cur hcur, List.foldl_append,
      foldl_pStep_escTok]
    have ht : t ≠ [] := hts t (by simp)
    have hrev : t.reverse ++ [] ≠ [] := by simp [ht]
    rw [show (t.reverse ++ [] : List Nat) = t.reverse by simp] at hrev ⊢
    rw [ih (cur.reverse :: acc) t.reverse hrev (fun u hu => hts u (by simp [hu]))]
    simp

theorem format_foldl_eq (ts : List (List Nat)) (line : List Nat) (hline : line ≠ []) :
    ts.foldl (fun l item => (if l.isEmpty then l else l ++ [32]) ++ escTok item) line
      = line ++ fmtRest ts := by
  induction ts generalizing line with
  | nil => simp [fmtRest]
  | cons t ts ih =>
    rw [List.foldl_cons]
    have h1 : line.isEmpty = false := by simpa [List.isEmpty_iff] using hline
    rw [h1]
    simp only [Bool.false_eq_true, if_false]
    rw [ih (line ++ [32] ++ escTok t) (by simp)]
    simp [fmtRest]

theorem format_line_cons (t : List Nat) (ts : List (List Nat)) (ht : t ≠ []) :
    format_line (t :: ts) = escTok t ++ fmtRest ts := by
  unfold format_line
  rw [List.foldl_cons]
  simp only [List.isEmpty_nil, if_true, List.nil_append]
  exact format_foldl_eq ts (escTok t) (escTok_ne_nil ht)


/-! ## Claim C1: round-trip of format and parse -/

/-- C1 counterexample: the token sequence holding one empty token contains
no control characters, yet format_line yields the empty line, which
parse_line maps to no tokens at all. -/
theorem roundtrip_fails_on_empty_token :
    parse_line (format_line [[]]) ≠ [[]] := by decide

/-- C1 (amended): for every token sequence whose tokens are all non-empty
and contain no control characters, parsing the formatted line reproduces
the tokens exactly. -/
theorem parse_format_roundtrip (ts : List (List Nat))
    (hne : ∀ t ∈ ts, t ≠ [])
    (hctl : ∀ t ∈ ts, ∀ c ∈ t, ¬ isControl c) :
    parse_line (format_line ts) = ts := by
  cases ts with
  | nil => rfl
  | cons t ts =>
    have ht : t ≠ [] := hne t (by simp)
    rw [format_line_cons t ts ht]
    have hnn : escTok t ++ fmtRest ts ≠ [] := by
      intro hx
      exact escTok_ne_nil ht (List.append_eq_nil.mp hx).1
    unfold parse_line
    rw [if_neg hnn, List.foldl_append]
    have hinit : pInit = (⟨[], [], false, false, false⟩ : PState) := rfl
    rw [hinit, foldl_pStep_escTok]
    have htr : t.reverse ++ [] ≠ [] := by simp [ht]
    rw [show (t.reverse ++ [] : List Nat) = t.reverse by simp]
    rw [parse_fmtRest ts [] t.reverse (by simp [ht]) (fun u hu => hne u (by simp [hu]))]
    simp

/-- C1 witness: the round-trip at a concrete token sequence containing a
space and a double quote. -/
theorem parse_format_roundtrip_witness :
    parse_line (format_line [[102, 111, 111], [97, 32, 34, 98]])
      = [[102, 111, 111], [97, 32, 34, 98]] :=
  parse_format_roundtrip [[102, 111, 111], [97, 32, 34, 98]]
    (by decide) (by decide)

/-! ## Claim C2: trailing escape at end of input -/

/-- C2 counterexample: the line holding the byte a followed by a dangling
backslash parses to the single token a; the trailing escape is dropped, so
no token of the result ends in a backslash. -/
theorem trailing_escape_not_literal :
    parse_line [97, 92] = [[97]] ∧
      ¬ ∃ tok, (parse_line [97, 92]).getLast? = some tok ∧
        tok.getLast? = some 92 := by decide

/-- C2 (amended): a dangling escape at end of input is silently dropped:
when the escape flag is clear after a non-empty line, appending a single
trailing backslash leaves the parse result unchanged. -/
theorem parse_trailing_escape_dropped (l : List Nat) (hl : l ≠ [])
    (hesc : (l.foldl pStep pInit).char_escape = false) :
    parse_line (l ++ [92]) = parse_line l := by
  unfold parse_line
  rw [if_neg (by simp), if_neg hl, List.foldl_append]
  have hstep : pStep (l.foldl pStep pInit) 92
      = { l.foldl pStep pInit with char_escape := true } := by
    simp [pStep, hesc]
  rw [List.foldl_cons, List.foldl_nil, hstep]
  rfl

/-- C2 witness: the amended statement at the concrete line a backslash. -/
theorem parse_trailing_escape_dropped_witness :
    parse_line ([97] ++ [92]) = parse_line [97] :=
  parse_trailing_escape_dropped [97] (by decide) (by decide)


/-! ## Claim C9: a line of only spaces parses to one empty token -/

theorem foldl_pStep_spaces (n : Nat) :
    List.foldl pStep pInit (List.replicate n 32) = pInit := by
  induction n with
  | zero => rfl
  | succ n ih =>
    rw [List.replicate_succ, List.foldl_cons]
    have h1 : pStep pInit 32 = pInit := by decide
    rw [h1, ih]

theorem parse_line_spaces (n : Nat) (hn : 0 < n) :
    parse_line (List.replicate n 32) = [[]] := by
  unfold parse_line
  rw [if_neg (by simp [Nat.pos_iff_ne_zero.mp hn]), foldl_pStep_spaces]
  rfl


/-- C9: a non-empty all-space buffer parses to exactly one empty token, and
pressing CR in normal mode hands the dispatcher that non-empty token list
whose single element is the empty string. -/
theorem empty_token_dispatch (env : Env) (s : ShellState) (n : Nat)
    (hn : 0 < n) (hbuf : s.line_buffer = List.replicate n 32)
    (hcmds : env.hasCommands = true) :
    parse_line (List.replicate n 32) = [[]] ∧
    (handle_normal env s 13).events
      = [Event.procCmd [[]], Event.execCmd [[]]] := by
  have hcl : parse_line s.line_buffer = [[]] := by
    rw [hbuf]; exact parse_line_spaces n hn
  refine ⟨parse_line_spaces n hn, ?_⟩
  simp only [handle_normal]
  norm_num
  simp only [process_command, hcl, hcmds]
  norm_num
  cases env.execCommand s.context s.flags [[]] <;> simp

/-- C9 witness: a two-space buffer at the trivial environment. -/
theorem empty_token_dispatch_witness :
    parse_line (List.replicate 2 32) = [[]] ∧
    (handle_normal trivEnv
        { mkShell 0 0 with line_buffer := List.replicate 2 32 } 13).events
      = [Event.procCmd [[]], Event.execCmd [[]]] :=
  empty_token_dispatch trivEnv
    { mkShell 0 0 with line_buffer := List.replicate 2 32 } 2
    (by decide) (by decide) (by decide)


/-! ## Claim C3: bounded log queue -/

theorem log_receive_all_eq_queueFold (env : Env) (ms : List Nat) (s : ShellState) :
    (log_receive_all env s ms).log_messages
      = queueFold env.maxLogMessages s.log_messages s.log_message_id ms := by
  induction ms generalizing s with
  | nil => rfl
  | cons m ms ih =>
    have hstep : log_receive_all env s (m :: ms)
        = log_receive_all env (log_receive env s m) ms := rfl
    rw [hstep, ih]
    rfl

theorem mkEntries_length (n : Nat) (ms : List Nat) :
    (mkEntries n ms).length = ms.length := by
  induction ms generalizing n with
  | nil => rfl
  | cons m ms ih => simp [mkEntries, ih]

theorem mkEntries_map_content (n : Nat) (ms : List Nat) :
    (mkEntries n ms).map QueuedLogMessage.content = ms := by
  induction ms generalizing n with
  | nil => rfl
  | cons m ms ih => simp [mkEntries, ih]

theorem queueFold_drop (maxN : Nat) (ms : List Nat) (q : List QueuedLogMessage) (n : Nat)
    (hmax : 0 < maxN) (hq : q.length ≤ maxN) :
    queueFold maxN q n ms
      = (q ++ mkEntries n ms).drop (q.length + ms.length - maxN) := by
  induction ms generalizing q n with
  | nil =>
    simp only [queueFold, mkEntries, List.append_nil, List.length_nil, Nat.add_zero]
    rw [Nat.sub_eq_zero_of_le hq, List.drop_zero]
  | cons m ms ih =>
    by_cases hfull : maxN ≤ q.length
    · have hmaxEq : maxN = q.length := Nat.le_antisymm hfull hq
      cases q with
      | nil => simp at hmaxEq; omega
      | cons a L =>
        have hfull2 : maxN ≤ L.length + 1 := by simpa using hfull
        have hmaxEq2 : maxN = L.length + 1 := by simpa using hmaxEq
        have hstep : queueFold maxN (a :: L) n (m :: ms)
            = queueFold maxN (L ++ [(⟨n, m⟩ : QueuedLogMessage)]) (n + 1) ms := by
          simp [queueFold, hfull2]
        have hq2 : (L ++ [(⟨n, m⟩ : QueuedLogMessage)]).length ≤ maxN := by
          simp
          omega
        rw [hstep, ih _ _ hq2]
        have hidx1 : (L ++ [(⟨n, m⟩ : QueuedLogMessage)]).length + ms.length - maxN
            = ms.length := by
          simp only [List.length_append, List.length_cons, List.length_nil]
          omega
        have hidx2 : (a :: L).length + (m :: ms).length - maxN = ms.length + 1 := by
          simp only [List.length_cons]
          omega
        rw [hidx1, hidx2]
        simp only [mkEntries, List.append_assoc, List.singleton_append,
          List.cons_append, List.nil_append]
        rw [List.drop_succ_cons]
    · have hstep : queueFold maxN q n (m :: ms)
          = queueFold maxN (q ++ [(⟨n, m⟩ : QueuedLogMessage)]) (n + 1) ms := by
        simp [queueFold, hfull]
      have hq2 : (q ++ [(⟨n, m⟩ : QueuedLogMessage)]).length ≤ maxN := by
        simp
        omega
      rw [hstep, ih _ _ hq2]
      have hidx : (q ++ [(⟨n, m⟩ : QueuedLogMessage)]).length + ms.length - maxN
          = q.length + (m :: ms).length - maxN := by
        simp only [List.length_append, List.length_cons, List.length_nil]
        omega
      rw [hidx]
      simp only [mkEntries, List.append_assoc, List.singleton_append,
        List.nil_append]

/-- C3: after appending strictly more messages than the capacity with no
intervening drains, exactly capacity entries remain, and they are the most
recently appended messages in arrival (oldest-first) order. -/
theorem log_queue_bound (env : Env) (s : ShellState) (ms : List Nat)
    (hmax : 0 < env.maxLogMessages)
    (hq : s.log_messages.length ≤ env.maxLogMessages)
    (hN : env.maxLogMessages < ms.length) :
    (log_receive_all env s ms).log_messages.length = env.maxLogMessages ∧
    (log_receive_all env s ms).log_messages.map QueuedLogMessage.content
      = ms.drop (ms.length - env.maxLogMessages) := by
  rw [log_receive_all_eq_queueFold,
    queueFold_drop env.maxLogMessages ms s.log_messages s.log_message_id hmax hq]
  have harith : s.log_messages.length + ms.length - env.maxLogMessages
      = s.log_messages.length + (ms.length - env.maxLogMessages) := by omega
  rw [harith, List.drop_append]
  constructor
  · rw [List.length_drop, mkEntries_length]
    omega
  · rw [List.map_drop, mkEntries_map_content]

/-- C3 witness: three messages into a capacity-two queue keep the last
two. -/
theorem log_queue_bound_witness :
    (log_receive_all trivEnv (mkShell 0 0) [5, 6, 7]).log_messages.length
        = trivEnv.maxLogMessages ∧
    (log_receive_all trivEnv (mkShell 0 0) [5, 6, 7]).log_messages.map
        QueuedLogMessage.content
      = [5, 6, 7].drop ([5, 6, 7].length - trivEnv.maxLogMessages) :=
  log_queue_bound trivEnv (mkShell 0 0) [5, 6, 7] (by decide) (by decide) (by decide)


/-! ## Claim C7: non-empty context stack and exit_context behaviour -/

/-- C7: the constructor seeds the stack with one entry, a one-entry stack
makes exit_context fail and leave the state unchanged, a larger stack is
popped with success and stays non-empty, and enter_context preserves
non-emptiness. -/
theorem context_stack_invariant :
    (∀ ctx flags, (mkShell ctx flags).context = [ctx]) ∧
    (∀ s : ShellState, s.context.length = 1 → exit_context s = (s, false)) ∧
    (∀ s : ShellState, 1 < s.context.length →
      exit_context s = ({ s with context := s.context.dropLast }, true) ∧
        (exit_context s).1.context ≠ []) ∧
    (∀ (s : ShellState) (ctx : Nat), s.context ≠ [] →
      (enter_context ctx s).context ≠ []) := by
  refine ⟨?_, ?_, ?_, ?_⟩
  · intro ctx flags
    rfl
  · intro s h
    unfold exit_context
    rw [if_neg (by omega)]
  · intro s h
    unfold exit_context
    rw [if_pos h]
    refine ⟨rfl, ?_⟩
    have hlen : s.context.dropLast.length = s.context.length - 1 :=
      s.context.length_dropLast
    intro hx
    have hx2 : s.context.dropLast = [] := hx
    rw [hx2] at hlen
    simp at hlen
    omega
  · intro s ctx h
    unfold enter_context
    simp

/-- C7 witness: the invariant pieces at a concrete shell holding first one
and then two contexts. -/
theorem context_stack_invariant_witness :
    (mkShell 7 0).context = [7] ∧
    exit_context (mkShell 7 0) = (mkShell 7 0, false) ∧
    (exit_context (enter_context 8 (mkShell 7 0))).2 = true ∧
    (enter_context 8 (mkShell 7 0)).context ≠ [] :=
  ⟨context_stack_invariant.1 7 0,
   context_stack_invariant.2.1 (mkShell 7 0) (by decide),
   by rw [(context_stack_invariant.2.2.1 (enter_context 8 (mkShell 7 0)) (by decide)).1],
   context_stack_invariant.2.2.2 (mkShell 7 0) 8 (by decide)⟩


/-! ## State-shape lemmas for the loop functions -/

theorem display_prompt_state_eq (env : Env) (s : ShellState) :
    (display_prompt env s).1 = s ∨
    (display_prompt env s).1 = { s with prompt_displayed := true } := by
  unfold display_prompt
  cases hm : s.mode
  · right; rfl
  · left
    cases hd : s.mode_data
    · rfl
    · rename_i md
      cases md <;> rfl
  · left; rfl

theorem display_prompt_mode (env : Env) (s : ShellState) :
    (display_prompt env s).1.mode = s.mode := by
  rcases display_prompt_state_eq env s with h | h <;> rw [h]

theorem display_prompt_line_buffer (env : Env) (s : ShellState) :
    (display_prompt env s).1.line_buffer = s.line_buffer := by
  rcases display_prompt_state_eq env s with h | h <;> rw [h]

theorem display_prompt_previous (env : Env) (s : ShellState) :
    (display_prompt env s).1.previous = s.previous := by
  rcases display_prompt_state_eq env s with h | h <;> rw [h]

theorem display_prompt_mode_data (env : Env) (s : ShellState) :
    (display_prompt env s).1.mode_data = s.mode_data := by
  rcases display_prompt_state_eq env s with h | h <;> rw [h]

theorem display_prompt_log_messages (env : Env) (s : ShellState) :
    (display_prompt env s).1.log_messages = s.log_messages := by
  rcases display_prompt_state_eq env s with h | h <;> rw [h]

theorem display_prompt_stopped (env : Env) (s : ShellState) :
    (display_prompt env s).1.stopped = s.stopped := by
  rcases display_prompt_state_eq env s with h | h <;> rw [h]

theorem output_logs_state_eq (env : Env) (s : ShellState) :
    (output_logs env s).1 = s ∨
    ∃ p, (output_logs env s).1
      = { s with log_messages := [], prompt_displayed := p } := by
  unfold output_logs
  by_cases hq : s.log_messages.isEmpty
  · left; simp [hq]
  · right
    by_cases hm : s.mode = Mode.delay
    · exact ⟨s.prompt_displayed, by simp [hq, hm, display_prompt]⟩
    · rcases display_prompt_state_eq env
          { s with prompt_displayed := false, log_messages := [] } with h | h
      · exact ⟨false, by simp [hq, hm, h]⟩
      · exact ⟨true, by simp [hq, hm, h]⟩

theorem output_logs_mode (env : Env) (s : ShellState) :
    (output_logs env s).1.mode = s.mode := by
  rcases output_logs_state_eq env s with h | ⟨p, h⟩ <;> rw [h]

theorem output_logs_previous (env : Env) (s : ShellState) :
    (output_logs env s).1.previous = s.previous := by
  rcases output_logs_state_eq env s with h | ⟨p, h⟩ <;> rw [h]

theorem output_logs_line_buffer (env : Env) (s : ShellState) :
    (output_logs env s).1.line_buffer = s.line_buffer := by
  rcases output_logs_state_eq env s with h | ⟨p, h⟩ <;> rw [h]

theorem output_logs_mode_data (env : Env) (s : ShellState) :
    (output_logs env s).1.mode_data = s.mode_data := by
  rcases output_logs_state_eq env s with h | ⟨p, h⟩ <;> rw [h]

theorem output_logs_stopped (env : Env) (s : ShellState) :
    (output_logs env s).1.stopped = s.stopped := by
  rcases output_logs_state_eq env s with h | ⟨p, h⟩ <;> rw [h]

theorem process_command_state_eq (env : Env) (s : ShellState) :
    ∃ p, (process_command env s).state
      = { s with line_buffer := [], prompt_displayed := p } := by
  unfold process_command
  by_cases hc : (parse_line s.line_buffer).isEmpty || !env.hasCommands
  · by_cases hs : s.stopped
    · exact ⟨false, by simp [hc, hs]⟩
    · rcases display_prompt_state_eq env
          { s with
            line_buffer := []
            stopped := false
            prompt_displayed := false } with h | h
      · exact ⟨false, by simp [hc, hs, h]⟩
      · exact ⟨true, by simp [hc, hs, h]⟩
  · cases hx : env.execCommand s.context s.flags (parse_line s.line_buffer)
    · by_cases hs : s.stopped
      · exact ⟨false, by simp [hc, hs, hx]⟩
      · rcases display_prompt_state_eq env
            { s with
              line_buffer := []
              stopped := false
              prompt_displayed := false } with h | h
        · exact ⟨false, by simp [hc, hs, hx, h]⟩
        · exact ⟨true, by simp [hc, hs, hx, h]⟩
    · by_cases hs : s.stopped
      · exact ⟨false, by simp [hc, hs, hx]⟩
      · rcases display_prompt_state_eq env
            { s with
              line_buffer := []
              stopped := false
              prompt_displayed := false } with h | h
        · exact ⟨false, by simp [hc, hs, hx, h]⟩
        · exact ⟨true, by simp [hc, hs, hx, h]⟩

theorem process_command_mode (env : Env) (s : ShellState) :
    (process_command env s).state.mode = s.mode := by
  rcases process_command_state_eq env s with ⟨p, h⟩
  rw [h]

theorem process_command_previous (env : Env) (s : ShellState) :
    (process_command env s).state.previous = s.previous := by
  rcases process_command_state_eq env s with ⟨p, h⟩
  rw [h]

theorem process_command_line_buffer (env : Env) (s : ShellState) :
    (process_command env s).state.line_buffer = [] := by
  rcases process_command_state_eq env s with ⟨p, h⟩
  rw [h]

theorem process_command_events (env : Env) (s : ShellState) :
    (process_command env s).events.countP isProcCmdEv = 1 := by
  unfold process_command
  by_cases hc : (parse_line s.line_buffer).isEmpty || !env.hasCommands
  · simp [hc, isProcCmdEv]
  · cases hx : env.execCommand s.context s.flags (parse_line s.line_buffer) <;>
      simp [hc, hx, isProcCmdEv]


/-! ## Reduction lemmas for loop_one -/

theorem loop_one_normal_cons (env : Env) (now : Nat) (s : ShellState) (c : Nat)
    (rest : List Nat) (hmode : s.mode = Mode.normal) :
    loop_one env now s (c :: rest)
      = (⟨(handle_normal env (output_logs env s).1 c).state,
          (output_logs env s).2 ++ (handle_normal env (output_logs env s).1 c).out,
          (handle_normal env (output_logs env s).1 c).events⟩, rest) := by
  have hm0 : (output_logs env s).1.mode = Mode.normal := by
    rw [output_logs_mode, hmode]
  unfold loop_one
  rcases hOL : output_logs env s with ⟨s0, w0⟩
  rw [hOL] at hm0
  simp only at hm0
  simp only [hOL]
  rw [hm0]

theorem loop_one_password_cons (env : Env) (now : Nat) (s : ShellState) (c : Nat)
    (rest : List Nat) (hmode : s.mode = Mode.password) :
    loop_one env now s (c :: rest)
      = (⟨(handle_password env (output_logs env s).1 c).state,
          (output_logs env s).2 ++ (handle_password env (output_logs env s).1 c).out,
          (handle_password env (output_logs env s).1 c).events⟩, rest) := by
  have hm0 : (output_logs env s).1.mode = Mode.password := by
    rw [output_logs_mode, hmode]
  unfold loop_one
  rcases hOL : output_logs env s with ⟨s0, w0⟩
  rw [hOL] at hm0
  simp only at hm0
  simp only [hOL]
  rw [hm0]

theorem loop_one_normal_nil (env : Env) (now : Nat) (s : ShellState)
    (hmode : s.mode = Mode.normal) :
    loop_one env now s []
      = (⟨(output_logs env s).1, (output_logs env s).2, []⟩, []) := by
  have hm0 : (output_logs env s).1.mode = Mode.normal := by
    rw [output_logs_mode, hmode]
  unfold loop_one
  rcases hOL : output_logs env s with ⟨s0, w0⟩
  rw [hOL] at hm0
  simp only at hm0
  simp only [hOL]
  rw [hm0]

theorem loop_one_password_nil (env : Env) (now : Nat) (s : ShellState)
    (hmode : s.mode = Mode.password) :
    loop_one env now s []
      = (⟨(output_logs env s).1, (output_logs env s).2, []⟩, []) := by
  have hm0 : (output_logs env s).1.mode = Mode.password := by
    rw [output_logs_mode, hmode]
  unfold loop_one
  rcases hOL : output_logs env s with ⟨s0, w0⟩
  rw [hOL] at hm0
  simp only at hm0
  simp only [hOL]
  rw [hm0]

theorem loop_one_delay (env : Env) (now : Nat) (s : ShellState) (input : List Nat)
    (hmode : s.mode = Mode.delay) :
    loop_one env now s input
      = (⟨(loop_delay env now (output_logs env s).1).state,
          (output_logs env s).2 ++ (loop_delay env now (output_logs env s).1).out,
          (loop_delay env now (output_logs env s).1).events⟩, input) := by
  have hm0 : (output_logs env s).1.mode = Mode.delay := by
    rw [output_logs_mode, hmode]
  unfold loop_one
  rcases hOL : output_logs env s with ⟨s0, w0⟩
  rw [hOL] at hm0
  simp only at hm0
  simp only [hOL]
  rw [hm0]

/-! ## Byte-level lemmas for handle_normal -/

theorem handle_normal_previous (env : Env) (s : ShellState) (c : Nat) :
    (handle_normal env s c).state.previous = c := rfl

theorem handle_normal_cr (env : Env) (s : ShellState) :
    handle_normal env s 13
      = ⟨{ (process_command env s).state with previous := 13 },
          (process_command env s).out, (process_command env s).events⟩ := by
  simp [handle_normal]

theorem handle_normal_lf_prev_cr (env : Env) (s : ShellState)
    (hprev : s.previous = 13) :
    handle_normal env s 10 = ⟨{ s with previous := 10 }, [], []⟩ := by
  simp [handle_normal, hprev]

theorem handle_normal_lf_exec (env : Env) (s : ShellState)
    (hprev : s.previous ≠ 13) :
    handle_normal env s 10
      = ⟨{ (process_command env s).state with previous := 10 },
          (process_command env s).out, (process_command env s).events⟩ := by
  simp [handle_normal, hprev]

theorem handle_normal_nul (env : Env) (s : ShellState) :
    handle_normal env s 0 = ⟨{ s with previous := 0 }, [], []⟩ := by
  simp [handle_normal]

theorem run_ticks_nil (env : Env) (s : ShellState) (input : List Nat) :
    run_ticks env [] s input = (s, [], []) := rfl

theorem run_ticks_cons (env : Env) (now : Nat) (ts : List Nat) (s : ShellState)
    (input : List Nat) :
    run_ticks env (now :: ts) s input
      = ((run_ticks env ts (loop_one env now s input).1.state
            (loop_one env now s input).2).1,
         (loop_one env now s input).1.out
           ++ (run_ticks env ts (loop_one env now s input).1.state
                (loop_one env now s input).2).2.1,
         (loop_one env now s input).1.events
           ++ (run_ticks env ts (loop_one env now s input).1.state
                (loop_one env now s input).2).2.2) := by
  rcases h : loop_one env now s input with ⟨r, rest⟩
  rcases hr : run_ticks env ts r.state rest with ⟨s2, w2, e2⟩
  simp only [run_ticks, h, hr]

/-! ## Component lemmas for single ticks -/

theorem loop_one_normal_state (env : Env) (now : Nat) (s : ShellState) (c : Nat)
    (rest : List Nat) (hmode : s.mode = Mode.normal) :
    (loop_one env now s (c :: rest)).1.state
      = (handle_normal env (output_logs env s).1 c).state := by
  rw [loop_one_normal_cons env now s c rest hmode]

theorem loop_one_normal_events (env : Env) (now : Nat) (s : ShellState) (c : Nat)
    (rest : List Nat) (hmode : s.mode = Mode.normal) :
    (loop_one env now s (c :: rest)).1.events
      = (handle_normal env (output_logs env s).1 c).events := by
  rw [loop_one_normal_cons env now s c rest hmode]

theorem loop_one_normal_rest (env : Env) (now : Nat) (s : ShellState) (c : Nat)
    (rest : List Nat) (hmode : s.mode = Mode.normal) :
    (loop_one env now s (c :: rest)).2 = rest := by
  rw [loop_one_normal_cons env now s c rest hmode]

theorem handle_normal_cr_events (env : Env) (s : ShellState) :
    (handle_normal env s 13).events = (process_command env s).events := by
  rw [handle_normal_cr]

theorem handle_normal_cr_mode (env : Env) (s : ShellState) :
    (handle_normal env s 13).state.mode = s.mode := by
  rw [handle_normal_cr]
  have := process_command_mode env s
  simp only []
  exact this

theorem handle_normal_lf_prev_cr_events (env : Env) (s : ShellState)
    (hprev : s.previous = 13) :
    (handle_normal env s 10).events = [] := by
  rw [handle_normal_lf_prev_cr env s hprev]

theorem handle_normal_nul_events (env : Env) (s : ShellState) :
    (handle_normal env s 0).events = [] := by
  rw [handle_normal_nul]

theorem handle_normal_nul_mode (env : Env) (s : ShellState) :
    (handle_normal env s 0).state.mode = s.mode := by
  rw [handle_normal_nul]

theorem handle_normal_nul_previous (env : Env) (s : ShellState) :
    (handle_normal env s 0).state.previous = 0 := by
  rw [handle_normal_nul]

theorem handle_normal_lf_exec_events (env : Env) (s : ShellState)
    (hprev : s.previous ≠ 13) :
    (handle_normal env s 10).events = (process_command env s).events := by
  rw [handle_normal_lf_exec env s hprev]

/-- C5: in normal mode the consecutive bytes CR then LF run
process_command exactly once; the LF is ignored because the previous byte
was CR. -/
theorem crlf_single_execution (env : Env) (s : ShellState) (t1 t2 : Nat)
    (hmode : s.mode = Mode.normal) :
    ((run_ticks env [t1, t2] s [13, 10]).2.2).countP isProcCmdEv = 1 := by
  rw [run_ticks_cons]
  rw [loop_one_normal_rest env t1 s 13 [10] hmode,
    loop_one_normal_events env t1 s 13 [10] hmode,
    loop_one_normal_state env t1 s 13 [10] hmode]
  rw [handle_normal_cr_events]
  -- facts about the state entering the second tick
  have hm1 : (handle_normal env (output_logs env s).1 13).state.mode
      = Mode.normal := by
    rw [handle_normal_cr_mode, output_logs_mode, hmode]
  have hp1 : (handle_normal env (output_logs env s).1 13).state.previous = 13 :=
    handle_normal_previous env (output_logs env s).1 13
  rw [run_ticks_cons]
  rw [loop_one_normal_events env t2 _ 10 [] hm1]
  have hprev2 : (output_logs env
      (handle_normal env (output_logs env s).1 13).state).1.previous = 13 := by
    rw [output_logs_previous, hp1]
  rw [handle_normal_lf_prev_cr_events env _ hprev2]
  simp only [run_ticks_nil, List.countP_append, List.countP_nil, Nat.add_zero]
  exact process_command_events env (output_logs env s).1

/-- C5 witness: a concrete run at the trivial environment. -/
theorem crlf_single_execution_witness :
    ((run_ticks trivEnv [0, 1] (mkShell 0 0) [13, 10]).2.2).countP isProcCmdEv = 1 :=
  crlf_single_execution trivEnv (mkShell 0 0) 0 1 (by decide)


/-- C8: the previous-input byte is recorded after every processed byte in
normal mode, including ignored ones; hence CR, NUL, LF runs the command
twice, because the NUL overwrites the remembered CR. -/
theorem previous_byte_updated (env : Env) (s : ShellState) (t1 t2 t3 : Nat)
    (hmode : s.mode = Mode.normal) :
    (∀ c, (handle_normal env s c).state.previous = c) ∧
    ((run_ticks env [t1, t2, t3] s [13, 0, 10]).2.2).countP isProcCmdEv = 2 := by
  refine ⟨fun c => handle_normal_previous env s c, ?_⟩
  rw [run_ticks_cons]
  rw [loop_one_normal_rest env t1 s 13 [0, 10] hmode,
    loop_one_normal_events env t1 s 13 [0, 10] hmode,
    loop_one_normal_state env t1 s 13 [0, 10] hmode]
  rw [handle_normal_cr_events]
  have hm1 : (handle_normal env (output_logs env s).1 13).state.mode
      = Mode.normal := by
    rw [handle_normal_cr_mode, output_logs_mode, hmode]
  rw [run_ticks_cons]
  rw [loop_one_normal_rest env t2 _ 0 [10] hm1,
    loop_one_normal_events env t2 _ 0 [10] hm1,
    loop_one_normal_state env t2 _ 0 [10] hm1]
  rw [handle_normal_nul_events]
  have hm2 : (handle_normal env
      (output_logs env (handle_normal env (output_logs env s).1 13).state).1 0).state.mode
      = Mode.normal := by
    rw [handle_normal_nul_mode, output_logs_mode, hm1]
  have hp2 : (handle_normal env
      (output_logs env (handle_normal env (output_logs env s).1 13).state).1 0).state.previous
      = 0 := handle_normal_nul_previous env _
  rw [run_ticks_cons]
  rw [loop_one_normal_events env t3 _ 10 [] hm2]
  have hprev3 : (output_logs env (handle_normal env
      (output_logs env (handle_normal env (output_logs env s).1 13).state).1 0).state).1.previous
      = 0 := by
    rw [output_logs_previous, hp2]
  have hne : (output_logs env (handle_normal env
      (output_logs env (handle_normal env (output_logs env s).1 13).state).1 0).state).1.previous
      ≠ 13 := by
    rw [hprev3]
    omega
  rw [handle_normal_lf_exec_events env _ hne]
  simp only [run_ticks_nil, List.countP_append, List.countP_nil, Nat.add_zero,
    Nat.zero_add]
  rw [process_command_events, process_command_events]

/-- C8 witness: the concrete byte sequence at the trivial environment. -/
theorem previous_byte_updated_witness :
    (∀ c, (handle_normal trivEnv (mkShell 0 0) c).state.previous = c) ∧
    ((run_ticks trivEnv [0, 1, 2] (mkShell 0 0) [13, 0, 10]).2.2).countP
        isProcCmdEv = 2 :=
  previous_byte_updated trivEnv (mkShell 0 0) 0 1 2 (by decide)


/-! ## Claim C4: the delay mode fires its callback exactly once -/

theorem output_logs_empty (env : Env) (s : ShellState)
    (hq : s.log_messages = []) : output_logs env s = (s, []) := by
  simp [output_logs, hq]

theorem loop_delay_before (env : Env) (now : Nat) (s : ShellState) (d i : Nat)
    (hdata : s.mode_data = some (ModeData.delayData d i)) (hlt : now < d) :
    loop_delay env now s = ⟨s, [], []⟩ := by
  unfold loop_delay
  rw [hdata]
  simp only []
  rw [if_neg (by omega)]

theorem loop_delay_fire (env : Env) (now : Nat) (s : ShellState) (d i : Nat)
    (hdata : s.mode_data = some (ModeData.delayData d i)) (hle : d ≤ now) :
    loop_delay env now s
      = ⟨(if (env.delayFn i { s with mode := Mode.normal, mode_data := none }).1.stopped
          then (env.delayFn i { s with mode := Mode.normal, mode_data := none }).1
          else (display_prompt env
            (env.delayFn i { s with mode := Mode.normal, mode_data := none }).1).1),
         (env.delayFn i { s with mode := Mode.normal, mode_data := none }).2
           ++ (if (env.delayFn i { s with mode := Mode.normal, mode_data := none }).1.stopped
               then []
               else (display_prompt env
                 (env.delayFn i { s with mode := Mode.normal, mode_data := none }).1).2),
         [Event.delayCb i Mode.normal none]⟩ := by
  unfold loop_delay
  rw [hdata]
  simp only []
  rw [if_pos hle]
  rcases hfn : env.delayFn i { s with mode := Mode.normal, mode_data := none }
    with ⟨s2, w2⟩
  simp only [hfn]
  by_cases hs : s2.stopped
  · simp [hs]
  · rcases hdp : display_prompt env s2 with ⟨s3, w3⟩
    simp [hs, hdp]

theorem loop_delay_fire_mode (env : Env) (now : Nat) (s : ShellState) (d i : Nat)
    (hdata : s.mode_data = some (ModeData.delayData d i)) (hle : d ≤ now) :
    (loop_delay env now s).state.mode
      = (env.delayFn i { s with mode := Mode.normal, mode_data := none }).1.mode := by
  rw [loop_delay_fire env now s d i hdata hle]
  by_cases hs : (env.delayFn i { s with mode := Mode.normal, mode_data := none }).1.stopped
  · simp [hs]
  · simp [hs, display_prompt_mode]

theorem loop_one_no_input_events (env : Env) (now : Nat) (s : ShellState)
    (hmode : s.mode ≠ Mode.delay) :
    (loop_one env now s []).1.events = []
      ∧ (loop_one env now s []).1.state.mode = s.mode
      ∧ (loop_one env now s []).2 = [] := by
  cases hm : s.mode with
  | normal =>
    rw [loop_one_normal_nil env now s hm]
    exact ⟨rfl, by rw [output_logs_mode, hm], rfl⟩
  | password =>
    rw [loop_one_password_nil env now s hm]
    exact ⟨rfl, by rw [output_logs_mode, hm], rfl⟩
  | delay => exact absurd hm hmode

theorem run_no_input_no_events (env : Env) (us : List Nat) (s : ShellState)
    (hmode : s.mode ≠ Mode.delay) :
    (run_ticks env us s []).2.2 = [] := by
  induction us generalizing s with
  | nil => rfl
  | cons v us ih =>
    obtain ⟨he, hm, hr⟩ := loop_one_no_input_events env v s hmode
    rw [run_ticks_cons, hr, he]
    simp only [List.nil_append]
    exact ih (loop_one env v s []).1.state (by rw [hm]; exact hmode)

theorem run_delay_idle_front (env : Env) (us1 rest : List Nat) (s : ShellState)
    (d i : Nat) (hmode : s.mode = Mode.delay)
    (hdata : s.mode_data = some (ModeData.delayData d i))
    (hq : s.log_messages = []) (hlt : ∀ v ∈ us1, v < d) :
    run_ticks env (us1 ++ rest) s [] = run_ticks env rest s [] := by
  induction us1 with
  | nil => rfl
  | cons v us ih =>
    have hv : v < d := hlt v (by simp)
    have htick : loop_one env v s [] = (⟨s, [], []⟩, []) := by
      rw [loop_one_delay env v s [] hmode, output_logs_empty env s hq]
      simp only []
      rw [loop_delay_before env v s d i hdata hv]
      rfl
    rw [List.cons_append, run_ticks_cons, htick]
    simp only [List.nil_append]
    rw [ih (fun w hw => hlt w (by simp [hw]))]


theorem loop_delay_fire_events (env : Env) (now : Nat) (s : ShellState) (d i : Nat)
    (hdata : s.mode_data = some (ModeData.delayData d i)) (hle : d ≤ now) :
    (loop_delay env now s).events = [Event.delayCb i Mode.normal none] := by
  rw [loop_delay_fire env now s d i hdata hle]

theorem loop_delay_fire_out (env : Env) (now : Nat) (s : ShellState) (d i : Nat)
    (hdata : s.mode_data = some (ModeData.delayData d i)) (hle : d ≤ now) :
    (loop_delay env now s).out
      = (env.delayFn i { s with mode := Mode.normal, mode_data := none }).2
        ++ (if (env.delayFn i { s with mode := Mode.normal, mode_data := none }).1.stopped
            then []
            else (display_prompt env
              (env.delayFn i { s with mode := Mode.normal, mode_data := none }).1).2) := by
  rw [loop_delay_fire env now s d i hdata hle]

theorem loop_one_delay_state (env : Env) (now : Nat) (s : ShellState)
    (input : List Nat) (hmode : s.mode = Mode.delay) :
    (loop_one env now s input).1.state
      = (loop_delay env now (output_logs env s).1).state := by
  rw [loop_one_delay env now s input hmode]

theorem loop_one_delay_events (env : Env) (now : Nat) (s : ShellState)
    (input : List Nat) (hmode : s.mode = Mode.delay) :
    (loop_one env now s input).1.events
      = (loop_delay env now (output_logs env s).1).events := by
  rw [loop_one_delay env now s input hmode]

theorem loop_one_delay_out (env : Env) (now : Nat) (s : ShellState)
    (input : List Nat) (hmode : s.mode = Mode.delay) :
    (loop_one env now s input).1.out
      = (output_logs env s).2 ++ (loop_delay env now (output_logs env s).1).out := by
  rw [loop_one_delay env now s input hmode]

theorem loop_one_delay_rest (env : Env) (now : Nat) (s : ShellState)
    (input : List Nat) (hmode : s.mode = Mode.delay) :
    (loop_one env now s input).2 = input := by
  rw [loop_one_delay env now s input hmode]


/-- C4: after delay_for in normal mode, over a run whose uptimes first stay
below the deadline and then reach it, the delay callback fires exactly once
and receives the state with the mode already reset to normal and the mode
data cleared; on the firing tick the prompt bytes follow the callback
output exactly when the shell is still running afterwards. -/
theorem delay_for_once (env : Env) (s : ShellState) (now ms fnId : Nat)
    (us1 us2 : List Nat) (u : Nat)
    (hmode : s.mode = Mode.normal) (hq : s.log_messages = [])
    (hcb : ∀ t, ((env.delayFn fnId t).1).mode ≠ Mode.delay)
    (hlt : ∀ v ∈ us1, v < now + ms) (hge : now + ms ≤ u) :
    (run_ticks env (us1 ++ u :: us2) (delay_for now ms fnId s) []).2.2
        = [Event.delayCb fnId Mode.normal none] ∧
    (run_ticks env (us1 ++ [u]) (delay_for now ms fnId s) []).2.1
        = (env.delayFn fnId { s with mode := Mode.normal, mode_data := none }).2
          ++ (if (env.delayFn fnId
                { s with mode := Mode.normal, mode_data := none }).1.stopped
              then []
              else (display_prompt env
                (env.delayFn fnId
                  { s with mode := Mode.normal, mode_data := none }).1).2) := by
  have hD : delay_for now ms fnId s
      = { s with mode := Mode.delay
                 mode_data := some (ModeData.delayData (now + ms) fnId) } := by
    simp [delay_for, delay_until, hmode]
  rw [hD]
  set sD : ShellState :=
    { s with
      mode := Mode.delay
      mode_data := some (ModeData.delayData (now + ms) fnId) } with hsD
  have hmodeD : sD.mode = Mode.delay := rfl
  have hdataD : sD.mode_data = some (ModeData.delayData (now + ms) fnId) := rfl
  have hqD : sD.log_messages = [] := hq
  have hOLfull : output_logs env sD = (sD, []) := output_logs_empty env sD hqD
  have hOL : (output_logs env sD).1 = sD := by rw [hOLfull]
  have hOLw : (output_logs env sD).2 = [] := by rw [hOLfull]
  constructor
  · rw [run_delay_idle_front env us1 (u :: us2) sD (now + ms) fnId hmodeD hdataD hqD hlt]
    rw [run_ticks_cons]
    rw [loop_one_delay_events env u sD [] hmodeD,
      loop_one_delay_state env u sD [] hmodeD,
      loop_one_delay_rest env u sD [] hmodeD, hOL]
    rw [loop_delay_fire_events env u sD (now + ms) fnId hdataD hge]
    have hpost : (run_ticks env us2 (loop_delay env u sD).state []).2.2 = [] := by
      apply run_no_input_no_events
      rw [loop_delay_fire_mode env u sD (now + ms) fnId hdataD hge]
      exact hcb _
    rw [hpost]
    simp
  · rw [run_delay_idle_front env us1 [u] sD (now + ms) fnId hmodeD hdataD hqD hlt]
    rw [run_ticks_cons]
    rw [loop_one_delay_out env u sD [] hmodeD,
      loop_one_delay_state env u sD [] hmodeD,
      loop_one_delay_rest env u sD [] hmodeD, hOL, hOLw]
    rw [loop_delay_fire_out env u sD (now + ms) fnId hdataD hge]
    simp only [run_ticks_nil, List.nil_append, List.append_nil]


/-- C4 witness: a concrete delayed callback at the trivial environment with
deadline five, idle ticks one and three, firing tick seven. -/
theorem delay_for_once_witness :
    (run_ticks trivEnv ([1, 3] ++ 7 :: [9]) (delay_for 0 5 0 (mkShell 0 0)) []).2.2
        = [Event.delayCb 0 Mode.normal none] ∧
    (run_ticks trivEnv ([1, 3] ++ [7]) (delay_for 0 5 0 (mkShell 0 0)) []).2.1
        = (trivEnv.delayFn 0
            { mkShell 0 0 with mode := Mode.normal, mode_data := none }).2
          ++ (if (trivEnv.delayFn 0
                { mkShell 0 0 with mode := Mode.normal, mode_data := none }).1.stopped
              then []
              else (display_prompt trivEnv
                (trivEnv.delayFn 0
                  { mkShell 0 0 with mode := Mode.normal, mode_data := none }).1).2) :=
  delay_for_once trivEnv (mkShell 0 0) 0 5 0 [1, 3] [9] 7 (by decide) (by decide)
    (fun t => by simp [trivEnv]) (by decide) (by decide)


/-! ## Claim C6: line buffer bound -/

theorem handle_normal_printable (env : Env) (s : ShellState) (c : Nat)
    (h1 : 32 ≤ c) (h2 : c ≤ 126) :
    handle_normal env s c
      = if s.line_buffer.length < env.maxLineLength
        then ⟨{ s with line_buffer := s.line_buffer ++ [c], previous := c }, [c], []⟩
        else ⟨{ s with previous := c }, [], []⟩ := by
  have hc3 : ¬ c = 3 := by omega
  have hc4 : ¬ c = 4 := by omega
  have hc87 : ¬ (c = 8 ∨ c = 127) := by omega
  have hc9 : ¬ c = 9 := by omega
  have hc10 : ¬ c = 10 := by omega
  have hc12 : ¬ c = 12 := by omega
  have hc13 : ¬ c = 13 := by omega
  have hc21 : ¬ c = 21 := by omega
  have hc23 : ¬ c = 23 := by omega
  unfold handle_normal
  rw [if_neg hc3, if_neg hc4, if_neg hc87, if_neg hc9, if_neg hc10, if_neg hc12,
    if_neg hc13, if_neg hc21, if_neg hc23, if_pos ⟨h1, h2⟩]
  by_cases hlen : s.line_buffer.length < env.maxLineLength
  · rw [if_pos hlen, if_pos hlen]
  · rw [if_neg hlen, if_neg hlen]

theorem handle_password_printable (env : Env) (s : ShellState) (c : Nat)
    (h1 : 32 ≤ c) (h2 : c ≤ 126) :
    handle_password env s c
      = if s.line_buffer.length < env.maxLineLength
        then ⟨{ s with line_buffer := s.line_buffer ++ [c], previous := c }, [], []⟩
        else ⟨{ s with previous := c }, [], []⟩ := by
  have hc3 : ¬ c = 3 := by omega
  have hc87 : ¬ (c = 8 ∨ c = 127) := by omega
  have hc10 : ¬ c = 10 := by omega
  have hc12 : ¬ c = 12 := by omega
  have hc13 : ¬ c = 13 := by omega
  have hc21 : ¬ c = 21 := by omega
  have hc23 : ¬ c = 23 := by omega
  unfold handle_password
  rw [if_neg hc3, if_neg hc87, if_neg hc10, if_neg hc12, if_neg hc13,
    if_neg hc21, if_neg hc23, if_pos ⟨h1, h2⟩]
  by_cases hlen : s.line_buffer.length < env.maxLineLength
  · rw [if_pos hlen, if_pos hlen]
  · rw [if_neg hlen, if_neg hlen]

theorem process_completion_state (env : Env) (s : ShellState) :
    ((process_completion env s).state.line_buffer = s.line_buffer ∨
     (process_completion env s).state.line_buffer
       = format_line (env.completeCommand s.context s.flags
           (parse_line s.line_buffer)).2) ∧
    (process_completion env s).state.mode = s.mode := by
  unfold process_completion
  by_cases hc : (parse_line s.line_buffer).isEmpty || !env.hasCommands
  · simp [hc]
  · simp only [hc, Bool.false_eq_true, if_false]
    by_cases hrepl : (env.completeCommand s.context s.flags
        (parse_line s.line_buffer)).2.isEmpty
    · by_cases hhelp : (env.completeCommand s.context s.flags
          (parse_line s.line_buffer)).1.isEmpty
      · simp [hrepl, hhelp]
      · constructor
        · left
          simp [hrepl, hhelp, display_prompt_line_buffer]
        · simp [hrepl, hhelp, display_prompt_mode]
    · constructor
      · right
        simp [hrepl, display_prompt_line_buffer]
      · by_cases hhelp : (env.completeCommand s.context s.flags
            (parse_line s.line_buffer)).1.isEmpty
        · simp [hrepl, hhelp, display_prompt_mode, erase_current_line]
        · simp [hrepl, hhelp, display_prompt_mode]


theorem delete_buffer_word_state (env : Env) (d : Bool) (s : ShellState) :
    (delete_buffer_word env d s).1.line_buffer.length ≤ s.line_buffer.length ∧
    (delete_buffer_word env d s).1.mode = s.mode := by
  unfold delete_buffer_word
  cases hf : find_last_of 32 s.line_buffer with
  | none =>
    by_cases hd : d
    · constructor
      · simp [hd, display_prompt_line_buffer, erase_current_line]
      · simp [hd, display_prompt_mode, erase_current_line]
    · constructor
      · simp [hd]
      · simp [hd]
  | some pos =>
    constructor
    · simp only [List.length_take]
      omega
    · simp


theorem handle_normal_inv (env : Env) (s : ShellState) (c : Nat)
    (hcomp : ∀ ctx fl ts,
      (format_line (env.completeCommand ctx fl ts).2).length ≤ env.maxLineLength)
    (heot : ∀ t, t.mode = Mode.normal → t.line_buffer.length ≤ env.maxLineLength →
      ((env.endOfTransmission t).1).line_buffer.length ≤ env.maxLineLength
        ∧ ((env.endOfTransmission t).1).mode ≠ Mode.delay)
    (hmode : s.mode = Mode.normal)
    (hbuf : s.line_buffer.length ≤ env.maxLineLength) :
    (handle_normal env s c).state.line_buffer.length ≤ env.maxLineLength
      ∧ (handle_normal env s c).state.mode ≠ Mode.delay := by
  unfold handle_normal
  simp only []
  by_cases h3 : c = 3
  · rw [if_pos h3]
    exact ⟨by simp [display_prompt_line_buffer],
      by simp [display_prompt_mode, hmode]⟩
  rw [if_neg h3]
  by_cases h4 : c = 4
  · rw [if_pos h4]
    by_cases hbe : s.line_buffer.isEmpty
    · rw [if_pos hbe]
      exact heot s hmode hbuf
    · rw [if_neg hbe]
      exact ⟨hbuf, by rw [hmode]; simp⟩
  rw [if_neg h4]
  by_cases h87 : c = 8 ∨ c = 127
  · rw [if_pos h87]
    by_cases hbe : s.line_buffer.isEmpty
    · rw [if_pos hbe]
      exact ⟨hbuf, by rw [hmode]; simp⟩
    · rw [if_neg hbe]
      refine ⟨?_, by rw [hmode]; simp⟩
      simp only [List.length_dropLast]
      omega
  rw [if_neg h87]
  by_cases h9 : c = 9
  · rw [if_pos h9]
    obtain ⟨hb, hm⟩ := process_completion_state env s
    refine ⟨?_, by rw [hm, hmode]; simp⟩
    rcases hb with h | h
    · rw [h]; exact hbuf
    · rw [h]; exact hcomp _ _ _
  rw [if_neg h9]
  by_cases h10 : c = 10
  · rw [if_pos h10]
    by_cases hp : s.previous ≠ 13
    · rw [if_pos hp]
      exact ⟨by rw [process_command_line_buffer]; simp,
        by rw [process_command_mode, hmode]; simp⟩
    · rw [if_neg hp]
      exact ⟨hbuf, by rw [hmode]; simp⟩
  rw [if_neg h10]
  by_cases h12 : c = 12
  · rw [if_pos h12]
    refine ⟨?_, by simp [display_prompt_mode, erase_current_line, hmode]⟩
    simp only [display_prompt_line_buffer, erase_current_line]
    exact hbuf
  rw [if_neg h12]
  by_cases h13 : c = 13
  · rw [if_pos h13]
    exact ⟨by rw [process_command_line_buffer]; simp,
      by rw [process_command_mode, hmode]; simp⟩
  rw [if_neg h13]
  by_cases h21 : c = 21
  · rw [if_pos h21]
    exact ⟨by simp [display_prompt_line_buffer, erase_current_line],
      by simp [display_prompt_mode, erase_current_line, hmode]⟩
  rw [if_neg h21]
  by_cases h23 : c = 23
  · rw [if_pos h23]
    obtain ⟨hb, hm⟩ := delete_buffer_word_state env true s
    exact ⟨le_trans hb hbuf, by rw [hm, hmode]; simp⟩
  rw [if_neg h23]
  by_cases hpr : 32 ≤ c ∧ c ≤ 126
  · rw [if_pos hpr]
    by_cases hlen : s.line_buffer.length < env.maxLineLength
    · rw [if_pos hlen]
      refine ⟨?_, by rw [hmode]; simp⟩
      simp only [List.length_append, List.length_cons, List.length_nil]
      omega
    · rw [if_neg hlen]
      exact ⟨hbuf, by rw [hmode]; simp⟩
  rw [if_neg hpr]
  exact ⟨hbuf, by rw [hmode]; simp⟩


theorem process_password_state (env : Env) (b : Bool) (s : ShellState) :
    ((process_password env b s).state.line_buffer = s.line_buffer ∨
     (process_password env b s).state.line_buffer = []) ∧
    ((process_password env b s).state.mode = s.mode ∨
     ∃ i, (process_password env b s).state.mode
       = (env.passwordFn i { s with mode := Mode.normal, mode_data := none }
           b s.line_buffer).1.mode) := by
  unfold process_password
  cases hd : s.mode_data with
  | none => simp
  | some md =>
    cases md with
    | passwordData p i =>
      by_cases hs : (env.passwordFn i { s with mode := Mode.normal, mode_data := none }
          b s.line_buffer).1.stopped
      · constructor
        · right
          simp [hs]
        · right
          exact ⟨i, by simp [hs]⟩
      · constructor
        · right
          simp [hs, display_prompt_line_buffer]
        · right
          exact ⟨i, by simp [hs, display_prompt_mode]⟩
    | delayData d i => simp

theorem handle_password_inv (env : Env) (s : ShellState) (c : Nat)
    (hpw : ∀ i t b txt, ((env.passwordFn i t b txt).1).mode ≠ Mode.delay)
    (hmode : s.mode = Mode.password)
    (hbuf : s.line_buffer.length ≤ env.maxLineLength) :
    (handle_password env s c).state.line_buffer.length ≤ env.maxLineLength
      ∧ (handle_password env s c).state.mode ≠ Mode.delay := by
  have hpassword : ∀ b : Bool,
      (process_password env b s).state.line_buffer.length ≤ env.maxLineLength
        ∧ (process_password env b s).state.mode ≠ Mode.delay := by
    intro b
    obtain ⟨hb, hm⟩ := process_password_state env b s
    constructor
    · rcases hb with h | h
      · rw [h]; exact hbuf
      · rw [h]; simp
    · rcases hm with h | ⟨i, h⟩
      · rw [h, hmode]; simp
      · rw [h]; exact hpw i _ b _
  unfold handle_password
  simp only []
  by_cases h3 : c = 3
  · rw [if_pos h3]
    exact hpassword false
  rw [if_neg h3]
  by_cases h87 : c = 8 ∨ c = 127
  · rw [if_pos h87]
    by_cases hbe : s.line_buffer.isEmpty
    · rw [if_pos hbe]
      exact ⟨hbuf, by rw [hmode]; simp⟩
    · rw [if_neg hbe]
      refine ⟨?_, by rw [hmode]; simp⟩
      simp only [List.length_dropLast]
      omega
  rw [if_neg h87]
  by_cases h10 : c = 10
  · rw [if_pos h10]
    by_cases hp : s.previous ≠ 13
    · rw [if_pos hp]
      exact hpassword true
    · rw [if_neg hp]
      exact ⟨hbuf, by rw [hmode]; simp⟩
  rw [if_neg h10]
  by_cases h12 : c = 12
  · rw [if_pos h12]
    refine ⟨?_, by simp [display_prompt_mode, erase_current_line, hmode]⟩
    simp only [display_prompt_line_buffer, erase_current_line]
    exact hbuf
  rw [if_neg h12]
  by_cases h13 : c = 13
  · rw [if_pos h13]
    exact hpassword true
  rw [if_neg h13]
  by_cases h21 : c = 21
  · rw [if_pos h21]
    exact ⟨by simp, by rw [hmode]; simp⟩
  rw [if_neg h21]
  by_cases h23 : c = 23
  · rw [if_pos h23]
    obtain ⟨hb, hm⟩ := delete_buffer_word_state env false s
    exact ⟨le_trans hb hbuf, by rw [hm, hmode]; simp⟩
  rw [if_neg h23]
  by_cases hpr : 32 ≤ c ∧ c ≤ 126
  · rw [if_pos hpr]
    by_cases hlen : s.line_buffer.length < env.maxLineLength
    · rw [if_pos hlen]
      refine ⟨?_, by rw [hmode]; simp⟩
      simp only [List.length_append, List.length_cons, List.length_nil]
      omega
    · rw [if_neg hlen]
      exact ⟨hbuf, by rw [hmode]; simp⟩
  rw [if_neg hpr]
  exact ⟨hbuf, by rw [hmode]; simp⟩


theorem loop_one_inv (env : Env) (now : Nat) (s : ShellState) (input : List Nat)
    (hcomp : ∀ ctx fl ts,
      (format_line (env.completeCommand ctx fl ts).2).length ≤ env.maxLineLength)
    (heot : ∀ t, t.mode = Mode.normal → t.line_buffer.length ≤ env.maxLineLength →
      ((env.endOfTransmission t).1).line_buffer.length ≤ env.maxLineLength
        ∧ ((env.endOfTransmission t).1).mode ≠ Mode.delay)
    (hpw : ∀ i t b txt, ((env.passwordFn i t b txt).1).mode ≠ Mode.delay)
    (hmode : s.mode ≠ Mode.delay)
    (hbuf : s.line_buffer.length ≤ env.maxLineLength) :
    (loop_one env now s input).1.state.line_buffer.length ≤ env.maxLineLength
      ∧ (loop_one env now s input).1.state.mode ≠ Mode.delay := by
  cases hm : s.mode with
  | delay => exact absurd hm hmode
  | normal =>
    cases input with
    | nil =>
      rw [loop_one_normal_nil env now s hm]
      exact ⟨by rw [output_logs_line_buffer]; exact hbuf,
        by rw [output_logs_mode, hm]; simp⟩
    | cons c rest =>
      have hst : (loop_one env now s (c :: rest)).1.state
          = (handle_normal env (output_logs env s).1 c).state :=
        loop_one_normal_state env now s c rest hm
      rw [hst]
      exact handle_normal_inv env (output_logs env s).1 c hcomp heot
        (by rw [output_logs_mode, hm]) (by rw [output_logs_line_buffer]; exact hbuf)
  | password =>
    cases input with
    | nil =>
      rw [loop_one_password_nil env now s hm]
      exact ⟨by rw [output_logs_line_buffer]; exact hbuf,
        by rw [output_logs_mode, hm]; simp⟩
    | cons c rest =>
      have hst : (loop_one env now s (c :: rest)).1.state
          = (handle_password env (output_logs env s).1 c).state := by
        rw [loop_one_password_cons env now s c rest hm]
      rw [hst]
      exact handle_password_inv env (output_logs env s).1 c hpw
        (by rw [output_logs_mode, hm]) (by rw [output_logs_line_buffer]; exact hbuf)

theorem run_ticks_inv (env : Env) (us : List Nat) (s : ShellState) (input : List Nat)
    (hcomp : ∀ ctx fl ts,
      (format_line (env.completeCommand ctx fl ts).2).length ≤ env.maxLineLength)
    (heot : ∀ t, t.mode = Mode.normal → t.line_buffer.length ≤ env.maxLineLength →
      ((env.endOfTransmission t).1).line_buffer.length ≤ env.maxLineLength
        ∧ ((env.endOfTransmission t).1).mode ≠ Mode.delay)
    (hpw : ∀ i t b txt, ((env.passwordFn i t b txt).1).mode ≠ Mode.delay)
    (hmode : s.mode ≠ Mode.delay)
    (hbuf : s.line_buffer.length ≤ env.maxLineLength) :
    (run_ticks env us s input).1.line_buffer.length ≤ env.maxLineLength := by
  induction us generalizing s input with
  | nil => exact hbuf
  | cons v us ih =>
    obtain ⟨hb1, hm1⟩ := loop_one_inv env v s input hcomp heot hpw hmode hbuf
    rw [run_ticks_cons]
    exact ih (loop_one env v s input).1.state (loop_one env v s input).2 hm1 hb1

/-- C6 (amended): with a dispatcher whose completion replacements format
within the maximum line length, an end-of-transmission hook preserving the
bound, and password callbacks that do not enter delay mode, the line
buffer never exceeds maximum_command_line_length over any tick run begun
in normal or password mode; a printable byte arriving with the buffer at
capacity is dropped, leaving the buffer and the transport untouched. -/
theorem buffer_bound (env : Env) (s : ShellState) (us input : List Nat)
    (hcomp : ∀ ctx fl ts,
      (format_line (env.completeCommand ctx fl ts).2).length ≤ env.maxLineLength)
    (heot : ∀ t, t.mode = Mode.normal → t.line_buffer.length ≤ env.maxLineLength →
      ((env.endOfTransmission t).1).line_buffer.length ≤ env.maxLineLength
        ∧ ((env.endOfTransmission t).1).mode ≠ Mode.delay)
    (hpw : ∀ i t b txt, ((env.passwordFn i t b txt).1).mode ≠ Mode.delay)
    (hmode : s.mode ≠ Mode.delay)
    (hbuf : s.line_buffer.length ≤ env.maxLineLength) :
    (run_ticks env us s input).1.line_buffer.length ≤ env.maxLineLength ∧
    (∀ c, 32 ≤ c → c ≤ 126 → s.line_buffer.length = env.maxLineLength →
      (handle_normal env s c).state.line_buffer = s.line_buffer ∧
      (handle_normal env s c).out = []) := by
  refine ⟨run_ticks_inv env us s input hcomp heot hpw hmode hbuf, ?_⟩
  intro c h1 h2 hcap
  rw [handle_normal_printable env s c h1 h2]
  rw [if_neg (by omega)]
  exact ⟨rfl, rfl⟩

/-- C6 witness: a short normal-mode run at the trivial environment with
printable input, and the drop of a printable byte at capacity. -/
theorem buffer_bound_witness :
    (run_ticks trivEnv [0, 1] (mkShell 0 0) [97, 98]).1.line_buffer.length
        ≤ trivEnv.maxLineLength ∧
    (∀ c, 32 ≤ c → c ≤ 126 →
      (mkShell 0 0).line_buffer.length = trivEnv.maxLineLength →
      (handle_normal trivEnv (mkShell 0 0) c).state.line_buffer
          = (mkShell 0 0).line_buffer ∧
      (handle_normal trivEnv (mkShell 0 0) c).out = []) :=
  buffer_bound trivEnv (mkShell 0 0) [0, 1] [97, 98]
    (fun ctx fl ts => by simp [trivEnv, format_line])
    (fun t hm hb => ⟨by simpa [trivEnv] using hb, by simp [trivEnv, hm]⟩)
    (fun i t b txt => by simp [trivEnv])
    (by decide) (by decide)


/-- C6 counterexample: starting within the bound in normal mode, one tab
byte processed through loop_one installs a completion replacement longer
than maximum_command_line_length into the line buffer. -/
theorem buffer_bound_fails_via_completion :
    ({ mkShell 0 0 with line_buffer := [97] } : ShellState).line_buffer.length
        ≤ overflowEnv.maxLineLength ∧
    overflowEnv.maxLineLength
      < (run_ticks overflowEnv [0]
          { mkShell 0 0 with line_buffer := [97] } [9]).1.line_buffer.length := by
  decide


/-! ## Claim C10: password mode writes no captured bytes -/

theorem display_prompt_password_state (env : Env) (s : ShellState)
    (hm : s.mode = Mode.password) : (display_prompt env s).1 = s := by
  unfold display_prompt
  rw [hm]
  cases hd : s.mode_data with
  | none => rfl
  | some md => cases md <;> rfl

theorem display_prompt_out_eq_password (env : Env) (s t : ShellState)
    (hm : s.mode = Mode.password) (hmt : t.mode = Mode.password)
    (hd : s.mode_data = t.mode_data) :
    (display_prompt env s).2 = (display_prompt env t).2 := by
  unfold display_prompt
  rw [hm, hmt, hd]
  cases hd2 : t.mode_data with
  | none => rfl
  | some md => cases md <;> rfl

theorem delete_buffer_word_false (env : Env) (s : ShellState) :
    ∃ X, delete_buffer_word env false s = ({ s with line_buffer := X }, []) := by
  unfold delete_buffer_word
  cases hf : find_last_of 32 s.line_buffer with
  | none => exact ⟨[], by simp⟩
  | some pos => exact ⟨s.line_buffer.take pos, by simp⟩

theorem handle_password_backspace (env : Env) (s : ShellState) (c : Nat)
    (h87 : c = 8 ∨ c = 127) :
    handle_password env s c
      = if s.line_buffer.isEmpty
        then ⟨{ s with previous := c }, [], []⟩
        else ⟨{ s with line_buffer := s.line_buffer.dropLast, previous := c },
              [], []⟩ := by
  rcases h87 with rfl | rfl <;>
    · simp only [handle_password]
      norm_num
      by_cases hb : s.line_buffer = [] <;> simp [hb]

theorem handle_password_ff (env : Env) (s : ShellState) :
    handle_password env s 12
      = ⟨{ (display_prompt env { s with prompt_displayed := false }).1
            with previous := 12 },
          eraseLineSeq
            ++ (display_prompt env { s with prompt_displayed := false }).2,
          []⟩ := by
  simp [handle_password, erase_current_line]

theorem handle_password_nak (env : Env) (s : ShellState) :
    handle_password env s 21
      = ⟨{ s with line_buffer := [], previous := 21 }, [], []⟩ := by
  simp [handle_password]

theorem handle_password_etb (env : Env) (s : ShellState) :
    handle_password env s 23
      = ⟨{ (delete_buffer_word env false s).1 with previous := 23 },
          (delete_buffer_word env false s).2, []⟩ := by
  simp [handle_password]

theorem handle_password_other (env : Env) (s : ShellState) (c : Nat)
    (h3 : ¬ c = 3) (h87 : ¬ (c = 8 ∨ c = 127)) (h10 : ¬ c = 10)
    (h12 : ¬ c = 12) (h13 : ¬ c = 13) (h21 : ¬ c = 21) (h23 : ¬ c = 23)
    (hpr : ¬ (32 ≤ c ∧ c ≤ 126)) :
    handle_password env s c = ⟨{ s with previous := c }, [], []⟩ := by
  unfold handle_password
  rw [if_neg h3, if_neg h87, if_neg h10, if_neg h12, if_neg h13, if_neg h21,
    if_neg h23, if_neg hpr]


theorem handle_password_lowEq (env : Env) (s t : ShellState) (c d : Nat)
    (hms : s.mode = Mode.password) (hle : lowEq s t) (hcd : pwByteRel c d) :
    (handle_password env s c).out = (handle_password env t d).out ∧
    lowEq (handle_password env s c).state (handle_password env t d).state ∧
    (handle_password env s c).state.mode = Mode.password := by
  obtain ⟨e1, e2, e3, e4, e5, e6, e7, e8⟩ := hle
  obtain ⟨heq, hc3, hc10, hc13, hd3, hd10, hd13⟩ := hcd
  have hmt : t.mode = Mode.password := by rw [← e1, hms]
  rcases heq with rfl | ⟨hc1, hc2, hd1, hd2⟩
  · by_cases h87 : c = 8 ∨ c = 127
    · rw [handle_password_backspace env s c h87,
        handle_password_backspace env t c h87]
      by_cases hbs : s.line_buffer.isEmpty <;>
        by_cases hbt : t.line_buffer.isEmpty <;>
          simp [hbs, hbt, lowEq, e1, e2, e3, e4, e5, e6, e7, e8, hms, hmt]
    · by_cases h12 : c = 12
      · subst h12
        rw [handle_password_ff env s, handle_password_ff env t]
        have hdp : (display_prompt env { s with prompt_displayed := false }).2
            = (display_prompt env { t with prompt_displayed := false }).2 :=
          display_prompt_out_eq_password env _ _ hms hmt e2
        have hst : (display_prompt env { s with prompt_displayed := false }).1
            = { s with prompt_displayed := false } :=
          display_prompt_password_state env _ hms
        have hstt : (display_prompt env { t with prompt_displayed := false }).1
            = { t with prompt_displayed := false } :=
          display_prompt_password_state env _ hmt
        rw [hdp, hst, hstt]
        simp [lowEq, e1, e2, e3, e4, e5, e6, e7, e8, hms, hmt]
      · by_cases h21 : c = 21
        · subst h21
          rw [handle_password_nak env s, handle_password_nak env t]
          simp [lowEq, e1, e2, e3, e4, e5, e6, e7, e8, hms, hmt]
        · by_cases h23 : c = 23
          · subst h23
            obtain ⟨X, hX⟩ := delete_buffer_word_false env s
            obtain ⟨Y, hY⟩ := delete_buffer_word_false env t
            rw [handle_password_etb env s, handle_password_etb env t, hX, hY]
            simp [lowEq, e1, e2, e3, e4, e5, e6, e7, e8, hms, hmt]
          · by_cases hpr : 32 ≤ c ∧ c ≤ 126
            · rw [handle_password_printable env s c hpr.1 hpr.2,
                handle_password_printable env t c hpr.1 hpr.2]
              by_cases hls : s.line_buffer.length < env.maxLineLength <;>
                by_cases hlt : t.line_buffer.length < env.maxLineLength <;>
                  simp [hls, hlt, lowEq, e1, e2, e3, e4, e5, e6, e7, e8, hms, hmt]
            · rw [handle_password_other env s c hc3 h87 hc10 h12 hc13 h21 h23 hpr,
                handle_password_other env t c hd3 h87 hd10 h12 hd13 h21 h23 hpr]
              simp [lowEq, e1, e2, e3, e4, e5, e6, e7, e8, hms, hmt]
  · rw [handle_password_printable env s c hc1 hc2,
      handle_password_printable env t d hd1 hd2]
    by_cases hls : s.line_buffer.length < env.maxLineLength <;>
      by_cases hlt : t.line_buffer.length < env.maxLineLength <;>
        simp [hls, hlt, lowEq, e1, e2, e3, e4, e5, e6, e7, e8, hms, hmt]


theorem output_logs_lowEq (env : Env) (s t : ShellState)
    (hms : s.mode = Mode.password) (hle : lowEq s t) :
    (output_logs env s).2 = (output_logs env t).2 ∧
    lowEq (output_logs env s).1 (output_logs env t).1 := by
  obtain ⟨e1, e2, e3, e4, e5, e6, e7, e8⟩ := hle
  have hmt : t.mode = Mode.password := by rw [← e1, hms]
  unfold output_logs
  by_cases hq : s.log_messages.isEmpty
  · have hqt : t.log_messages.isEmpty = true := by rw [← e3]; exact hq
    rw [if_pos hq, if_pos hqt]
    exact ⟨rfl, e1, e2, e3, e4, e5, e6, e7, e8⟩
  · have hqt : ¬ t.log_messages.isEmpty = true := by rw [← e3]; exact hq
    rw [if_neg hq, if_neg hqt]
    have hmd : ¬ s.mode = Mode.delay := by rw [hms]; simp
    have hmdt : ¬ t.mode = Mode.delay := by rw [hmt]; simp
    rw [if_neg hmd, if_neg hmd, if_neg hmdt, if_neg hmdt]
    simp only []
    have hdp : (display_prompt env
        { s with prompt_displayed := false, log_messages := [] }).2
        = (display_prompt env
          { t with prompt_displayed := false, log_messages := [] }).2 :=
      display_prompt_out_eq_password env _ _ hms hmt e2
    have hst : (display_prompt env
        { s with prompt_displayed := false, log_messages := [] }).1
        = { s with prompt_displayed := false, log_messages := [] } :=
      display_prompt_password_state env _ hms
    have hstt : (display_prompt env
        { t with prompt_displayed := false, log_messages := [] }).1
        = { t with prompt_displayed := false, log_messages := [] } :=
      display_prompt_password_state env _ hmt
    rw [hdp, hst, hstt, e3]
    exact ⟨rfl, e1, e2, rfl, e4, e5, rfl, e7, e8⟩


theorem loop_one_password_lowEq (env : Env) (now : Nat) (s t : ShellState)
    (bs bt : List Nat)
    (hms : s.mode = Mode.password) (hle : lowEq s t)
    (hrel : List.Forall₂ pwByteRel bs bt) :
    (loop_one env now s bs).1.out = (loop_one env now t bt).1.out ∧
    lowEq (loop_one env now s bs).1.state (loop_one env now t bt).1.state ∧
    (loop_one env now s bs).1.state.mode = Mode.password ∧
    List.Forall₂ pwByteRel (loop_one env now s bs).2 (loop_one env now t bt).2 := by
  have hmt : t.mode = Mode.password := by rw [← hle.1, hms]
  cases hrel with
  | nil =>
    rw [loop_one_password_nil env now s hms, loop_one_password_nil env now t hmt]
    obtain ⟨ho, hl⟩ := output_logs_lowEq env s t hms hle
    exact ⟨ho, hl, by rw [output_logs_mode, hms], List.Forall₂.nil⟩
  | @cons c d bsr btr hcd hrest =>
    rw [loop_one_password_cons env now s c bsr hms,
      loop_one_password_cons env now t d btr hmt]
    obtain ⟨ho, hl⟩ := output_logs_lowEq env s t hms hle
    have hm0 : (output_logs env s).1.mode = Mode.password := by
      rw [output_logs_mode, hms]
    obtain ⟨ho2, hl2, hm2⟩ :=
      handle_password_lowEq env (output_logs env s).1 (output_logs env t).1
        c d hm0 hl hcd
    exact ⟨by rw [ho, ho2], hl2, hm2, hrest⟩

theorem run_password_lowEq (env : Env) (us : List Nat) (s t : ShellState)
    (bs bt : List Nat)
    (hms : s.mode = Mode.password) (hle : lowEq s t)
    (hrel : List.Forall₂ pwByteRel bs bt) :
    (run_ticks env us s bs).2.1 = (run_ticks env us t bt).2.1 := by
  induction us generalizing s t bs bt with
  | nil => rfl
  | cons v us ih =>
    obtain ⟨ho, hl, hm, hr⟩ := loop_one_password_lowEq env v s t bs bt hms hle hrel
    rw [run_ticks_cons, run_ticks_cons, ho,
      ih (loop_one env v s bs).1.state (loop_one env v t bt).1.state
        (loop_one env v s bs).2 (loop_one env v t bt).2 hm hl hr]

/-- C10: in password mode a printable byte is captured into the buffer with
no transport write, a prompt redraw writes only the stored password prompt,
and two tick runs whose inputs differ only in non-completing printable
bytes produce identical transport output. -/
theorem password_no_leak (env : Env) (s t : ShellState) (us bs bt : List Nat)
    (hms : s.mode = Mode.password) (hle : lowEq s t)
    (hrel : List.Forall₂ pwByteRel bs bt) :
    (∀ c, 32 ≤ c → c ≤ 126 → s.line_buffer.length < env.maxLineLength →
      (handle_password env s c).state.line_buffer = s.line_buffer ++ [c] ∧
      (handle_password env s c).out = []) ∧
    (∀ p i, s.mode_data = some (ModeData.passwordData p i) →
      (display_prompt env s).2 = p) ∧
    (run_ticks env us s bs).2.1 = (run_ticks env us t bt).2.1 := by
  refine ⟨?_, ?_, run_password_lowEq env us s t bs bt hms hle hrel⟩
  · intro c h1 h2 hlen
    rw [handle_password_printable env s c h1 h2, if_pos hlen]
    exact ⟨rfl, rfl⟩
  · intro p i hd
    unfold display_prompt
    rw [hms, hd]

/-- C10 witness: two concrete password-mode shells whose buffers and
captured printable bytes differ, with identical transport output. -/
theorem password_no_leak_witness :
    (∀ c, 32 ≤ c → c ≤ 126 →
      (enter_password [62] 0 (mkShell 0 0)).line_buffer.length
          < trivEnv.maxLineLength →
      (handle_password trivEnv (enter_password [62] 0 (mkShell 0 0)) c).state.line_buffer
          = (enter_password [62] 0 (mkShell 0 0)).line_buffer ++ [c] ∧
      (handle_password trivEnv (enter_password [62] 0 (mkShell 0 0)) c).out = []) ∧
    (∀ p i, (enter_password [62] 0 (mkShell 0 0)).mode_data
        = some (ModeData.passwordData p i) →
      (display_prompt trivEnv (enter_password [62] 0 (mkShell 0 0))).2 = p) ∧
    (run_ticks trivEnv [0, 1] (enter_password [62] 0 (mkShell 0 0)) [97, 98]).2.1
      = (run_ticks trivEnv [0, 1]
          { enter_password [62] 0 (mkShell 0 0) with line_buffer := [65] }
          [99, 98]).2.1 :=
  password_no_leak trivEnv (enter_password [62] 0 (mkShell 0 0))
    { enter_password [62] 0 (mkShell 0 0) with line_buffer := [65] }
    [0, 1] [97, 98] [99, 98]
    (by decide) (by decide)
    (List.Forall₂.cons
      (by refine ⟨Or.inr ?_, ?_, ?_, ?_, ?_, ?_, ?_⟩ <;> omega)
      (List.Forall₂.cons
        (by refine ⟨Or.inl rfl, ?_, ?_, ?_, ?_, ?_, ?_⟩ <;> omega)
        List.Forall₂.nil))

end UuidConsole
